import Mathlib

/-!
# Verification of the basic-rules-engine repository

Shallow embedding of `src/engine.ts` (the async rule engine with statistics,
hooks and error handling) together with proofs of the specified properties.

Modelling conventions:

* Result objects are association lists `List (String × Value)`; the JS object
  spread `{ ...a, ...b }` is `mergeResult a b`.
* Thrown JS errors are modelled by `Except String`, the `String` being the
  error's message (`err.message`); the engine's wrapping of thrown values
  corresponds to the `evalErrorMessage` / `execErrorMessage` constructions.
* `performance.now()` is abstracted by a logical clock that advances by one
  tick for each `evaluate` and each `action` invocation, so every measured
  duration is one tick.  This keeps timing causally faithful (time only
  advances when rule code runs, totals are only written where the source
  writes them) without modelling real time.
* The `onError` hook is modelled observationally: `onErrorConfigured` says
  whether `options.onError` is set, and each invocation the source would make
  is recorded in `errorLog` as a pair (enhanced message, phase tag).
* `beforeRule` / `afterRule` hooks are modelled as optional pure functions
  that may themselves throw (return `.error`), mirroring that in the source
  they run inside the same try/catch as the rule's action.
* `actionInvocations` is an instrumentation counter: it counts exactly the
  calls of `rule.action` the engine makes (including ones that throw).
* The `while` loop of `run` is driven by a `fuel` argument with the invariant
  `fuel = maxIterations - nbIterations`; the source's check
  `++this.nbIterations > maxIterations` fires exactly when `fuel = 0`, and in
  that case the model returns the cap error with the incremented counter,
  exactly as the source throws after incrementing.
* Rules may carry arbitrary extra fields in the source (e.g. the rule-owned
  `swapBuffer`, which the engine never reads or writes); only the fields the
  engine touches (`name`, `evaluate`, `action`) are modelled.
-/

namespace RulesEngine

/-- A dynamic value stored in a result object. -/
inductive Value where
  | num (n : Int)
  | bool (b : Bool)
deriving DecidableEq

/-- A result object: an association list from keys to values. -/
abbrev ResMap := List (String × Value)

/-- Key lookup in a result object. -/
def lookupResult (m : ResMap) (k : String) : Option Value :=
  (m.find? (fun p => p.1 == k)).map (fun p => p.2)

/-- Key membership in a result object. -/
def containsKey (m : ResMap) (k : String) : Bool :=
  m.any (fun p => p.1 == k)

/-- JS object spread `{ ...r, ...upd }`: keys of `upd` overwrite, all other
keys of `r` are preserved. -/
def mergeResult (r upd : ResMap) : ResMap :=
  r.filter (fun p => !containsKey upd p.1) ++ upd

/-- A rule, as consumed by the engine: optional name, predicate and action.
Both may throw (model: return `.error msg`).  `evaluate` returns a boolean,
`action` returns the update object or `none` (JS `undefined`). -/
structure Rule (C : Type) where
  name : Option String
  evaluate : C → ResMap → Except String Bool
  action : C → ResMap → Except String (Option ResMap)

/-- Per-rule statistics record (`RuleStatistics` in `types.ts`). -/
structure RuleStats where
  ruleName : String
  evaluationCount : Nat
  executionCount : Nat
  evaluationTimeMs : Nat
  executionTimeMs : Nat
deriving DecidableEq

/-- Run-scoped statistics (`ExecutionStatistics` in `types.ts`); `ruleStats`
models the JS `Map` as an insertion-ordered association list. -/
structure ExecutionStatistics where
  totalIterations : Nat
  totalTimeMs : Nat
  ruleStats : List (String × RuleStats)
deriving DecidableEq

/-- `Map.get` on the rule-statistics map. -/
def statsGet (l : List (String × RuleStats)) (k : String) : Option RuleStats :=
  (l.find? (fun p => p.1 == k)).map (fun p => p.2)

/-- `Map.set` on the rule-statistics map: replace in place or append. -/
def statsSet : List (String × RuleStats) → String → RuleStats → List (String × RuleStats)
  | [], k, v => [(k, v)]
  | p :: rest, k, v => if p.1 == k then (k, v) :: rest else p :: statsSet rest k v

/-- Per-run options (`RunOptions` in `types.ts`).  `debug` only produces
console output in the source and is not modelled.  `onErrorConfigured`
models whether `options.onError` is set. -/
structure RunOptions (C : Type) where
  maxIterations : Option Nat
  collectStats : Bool
  continueOnError : Bool
  onErrorConfigured : Bool
  beforeRule : Option (Rule C → C → ResMap → Except String Unit)
  afterRule : Option (Rule C → C → ResMap → Option ResMap → Except String Unit)

/-- `run()` with no options. -/
def defaultRunOptions (C : Type) : RunOptions C :=
  { maxIterations := none
    collectStats := false
    continueOnError := false
    onErrorConfigured := false
    beforeRule := none
    afterRule := none }

/-- Observable engine state threaded through a run: the accumulating result,
the statistics object (`this.statistics`), the logical clock, the recorded
`onError` invocations (message, phase) and the instrumentation counter of
`action` calls. -/
structure RunState where
  result : ResMap
  stats : Option ExecutionStatistics
  clock : Nat
  errorLog : List (String × String)
  actionInvocations : Nat

/-- `getRuleName`: the rule's name, or the positional fallback; JS
`rule.name || fallback` also falls back on the empty string. -/
def getRuleName {C : Type} (rule : Rule C) (index : Nat) : String :=
  match rule.name with
  | some n => if n = "" then "Rule #" ++ toString (index + 1) else n
  | none => "Rule #" ++ toString (index + 1)

/-- A fresh per-rule statistics record, as written by `initializeStatistics`. -/
def freshRuleStats (name : String) : RuleStats :=
  { ruleName := name
    evaluationCount := 0
    executionCount := 0
    evaluationTimeMs := 0
    executionTimeMs := 0 }

/-- The `rules.forEach(... Map.set ...)` pass of `initializeStatistics`. -/
def insertRuleStats {C : Type} (acc : List (String × RuleStats)) :
    List (Rule C) → Nat → List (String × RuleStats)
  | [], _ => acc
  | r :: rest, i =>
    insertRuleStats (statsSet acc (getRuleName r i) (freshRuleStats (getRuleName r i))) rest (i + 1)

/-- `initializeStatistics`: zero totals and a fresh per-rule record for each
rule (keyed by its display name). -/
def initStatistics {C : Type} (rules : List (Rule C)) : ExecutionStatistics :=
  { totalIterations := 0
    totalTimeMs := 0
    ruleStats := insertRuleStats [] rules 0 }

/-- `updateEvaluationStats`: bump the evaluation count/time of a rule's
record if statistics are being collected and the record exists. -/
def updateEvaluationStats (stats : Option ExecutionStatistics) (ruleName : String)
    (timeMs : Nat) : Option ExecutionStatistics :=
  match stats with
  | none => none
  | some s =>
    match statsGet s.ruleStats ruleName with
    | none => some s
    | some rs =>
      let rs2 := { rs with evaluationCount := rs.evaluationCount + 1,
                           evaluationTimeMs := rs.evaluationTimeMs + timeMs }
      some { s with ruleStats := statsSet s.ruleStats ruleName rs2 }

/-- `updateExecutionStats`: bump the execution count/time of a rule's
record if statistics are being collected and the record exists. -/
def updateExecutionStats (stats : Option ExecutionStatistics) (ruleName : String)
    (timeMs : Nat) : Option ExecutionStatistics :=
  match stats with
  | none => none
  | some s =>
    match statsGet s.ruleStats ruleName with
    | none => some s
    | some rs =>
      let rs2 := { rs with executionCount := rs.executionCount + 1,
                           executionTimeMs := rs.executionTimeMs + timeMs }
      some { s with ruleStats := statsSet s.ruleStats ruleName rs2 }

/-- The wrapped message of a predicate failure. -/
def evalErrorMessage (ruleName msg : String) : String :=
  "Error evaluating rule \"" ++ ruleName ++ "\": " ++ msg

/-- The wrapped message of an action failure. -/
def execErrorMessage (ruleName msg : String) : String :=
  "Error executing rule \"" ++ ruleName ++ "\": " ++ msg

/-- The iteration-cap error message; it names the configured maximum. -/
def maxIterationsMessage (n : Nat) : String :=
  "Rule engine exceeded maximum number of iterations (" ++ toString n ++
    "). This may indicate an infinite loop."

/-- Outcome of the rule-selection scan (`getNextRuleToEvaluate`): the first
matching rule (with its index), exhaustion, or a propagated wrapped error. -/
inductive ScanOutcome (C : Type) where
  | found (index : Nat) (rule : Rule C)
  | exhausted
  | thrown (msg : String)

/-- The selection scan from index `i`: invoke predicates in list order, stop
at the first that returns true; record evaluation statistics; on a throw,
wrap, record the `onError` invocation with phase `"evaluate"`, then either
skip the rule (`continueOnError`) or abort the scan. -/
def scanRules {C : Type} (ctx : C) (opts : RunOptions C) :
    List (Rule C) → Nat → RunState → ScanOutcome C × RunState
  | [], _, st => (.exhausted, st)
  | rule :: rest, i, st =>
    let ruleName := getRuleName rule i
    let st1 := { st with clock := st.clock + 1 }
    match rule.evaluate ctx st.result with
    | .ok shouldEvaluate =>
      let st2 := if opts.collectStats then
          { st1 with stats := updateEvaluationStats st1.stats ruleName 1 }
        else st1
      if shouldEvaluate then (.found i rule, st2)
      else scanRules ctx opts rest (i + 1) st2
    | .error msg =>
      let enhanced := evalErrorMessage ruleName msg
      let st2 := { st1 with errorLog := st1.errorLog ++
        (if opts.onErrorConfigured then [(enhanced, "evaluate")] else []) }
      if opts.continueOnError then scanRules ctx opts rest (i + 1) st2
      else (.thrown enhanced, st2)

/-- `getNextRuleToEvaluate`: the selection scan over the whole rule list. -/
def getNextRuleToEvaluate {C : Type} (ctx : C) (rules : List (Rule C))
    (opts : RunOptions C) (st : RunState) : ScanOutcome C × RunState :=
  scanRules ctx opts rules 0 st

/-- The state at the moment the action is invoked: the clock ticks and the
instrumentation counter of action invocations increases. -/
def actionStartState (st : RunState) : RunState :=
  { st with clock := st.clock + 1,
            actionInvocations := st.actionInvocations + 1 }

/-- The state after an action returned `resultUpdates` without throwing:
execution statistics recorded when collection is on, then the update (if
any) shallow-merged onto the result. -/
def afterActionOkState {C : Type} (opts : RunOptions C) (ruleName : String)
    (resultUpdates : Option ResMap) (st1 : RunState) : RunState :=
  let st2 := if opts.collectStats then
      { st1 with stats := updateExecutionStats st1.stats ruleName 1 }
    else st1
  match resultUpdates with
  | some upd => { st2 with result := mergeResult st2.result upd }
  | none => st2

/-- The part of the loop body after the `beforeRule` hook: invoke the action,
record execution statistics on success, merge a returned update, then run the
`afterRule` hook.  Returns the state reached together with the raw message of
a throw, if any (to be wrapped by the catch handler). -/
def execActionPhase {C : Type} (ctx : C) (opts : RunOptions C) (rule : Rule C)
    (ruleName : String) (st : RunState) : RunState × Option String :=
  let st1 := actionStartState st
  match rule.action ctx st.result with
  | .error m => (st1, some m)
  | .ok resultUpdates =>
    let st3 := afterActionOkState opts ruleName resultUpdates st1
    match opts.afterRule with
    | some hook =>
      match hook rule ctx st3.result resultUpdates with
      | .error m => (st3, some m)
      | .ok _ => (st3, none)
    | none => (st3, none)

/-- The try-block of the loop body: `beforeRule` hook, then the action phase.
Any throw is reported as the raw message alongside the state reached. -/
def tryExecuteRule {C : Type} (ctx : C) (opts : RunOptions C) (rule : Rule C)
    (ruleName : String) (st : RunState) : RunState × Option String :=
  match opts.beforeRule with
  | some hook =>
    match hook rule ctx st.result with
    | .error m => (st, some m)
    | .ok _ => execActionPhase ctx opts rule ruleName st
  | none => execActionPhase ctx opts rule ruleName st

/-- The main `while (ruleToRun)` loop of `run`.  `fuel` maintains
`fuel = maxIterations - nbIterations`, so the source's cap check
`++nbIterations > maxIterations` fires exactly at `fuel = 0`.  Returns the
outcome (final result or thrown message), the final iteration counter and the
final engine state. -/
def runLoop {C : Type} (ctx : C) (rules : List (Rule C)) (opts : RunOptions C)
    (maxIterations : Nat) :
    Nat → Nat → ScanOutcome C → RunState → Except String ResMap × Nat × RunState
  | _, nbIterations, .thrown m, st => (.error m, nbIterations, st)
  | _, nbIterations, .exhausted, st => (.ok st.result, nbIterations, st)
  | fuel, nbIterations, .found index rule, st =>
    match fuel with
    | 0 => (.error (maxIterationsMessage maxIterations), nbIterations + 1, st)
    | fuel' + 1 =>
      let ruleName := getRuleName rule index
      match tryExecuteRule ctx opts rule ruleName st with
      | (st', none) =>
        let s := getNextRuleToEvaluate ctx rules opts st'
        runLoop ctx rules opts maxIterations fuel' (nbIterations + 1) s.1 s.2
      | (st', some rawMsg) =>
        let enhanced := execErrorMessage ruleName rawMsg
        let st2 := { st' with errorLog := st'.errorLog ++
          (if opts.onErrorConfigured then [(enhanced, "action")] else []) }
        if opts.continueOnError then
          let s := getNextRuleToEvaluate ctx rules opts st2
          runLoop ctx rules opts maxIterations fuel' (nbIterations + 1) s.1 s.2
        else (.error enhanced, nbIterations + 1, st2)

/-- The engine state at the start of `run`: the current result, a freshly
initialised statistics object when collection is requested, the clock at
the `startTime` reading, no `onError` invocations and no actions yet. -/
def initialRunState {C : Type} (rules : List (Rule C)) (initialResult : ResMap)
    (opts : RunOptions C) : RunState :=
  { result := initialResult
    stats := if opts.collectStats then some (initStatistics rules) else none
    clock := 0
    errorLog := []
    actionInvocations := 0 }

/-- The statistics finalisation of `run`'s normal exit: if collection is on
and a statistics object exists, write the totals (iterations and elapsed
time); reached only when the loop ends without throwing. -/
def finalizeState {C : Type} (opts : RunOptions C) (nb : Nat) (st : RunState) : RunState :=
  if opts.collectStats then
    match st.stats with
    | some s2 =>
      let s3 := { s2 with totalIterations := nb, totalTimeMs := st.clock }
      { st with stats := some s3 }
    | none => st
  else st

/-- `run(options)`: resolve the cap (default 1000), initialise statistics if
requested, select and execute rules until no rule matches or an error is
propagated; on normal exit write the statistics totals and return the
result.  The returned triple is (outcome, final iteration counter, final
observable engine state). -/
def run {C : Type} (ctx : C) (rules : List (Rule C)) (initialResult : ResMap)
    (opts : RunOptions C) : Except String ResMap × Nat × RunState :=
  let maxIterations := opts.maxIterations.getD 1000
  let st0 := initialRunState rules initialResult opts
  let s := getNextRuleToEvaluate ctx rules opts st0
  match runLoop ctx rules opts maxIterations maxIterations 0 s.1 s.2 with
  | (.ok r, nb, st) => (.ok r, nb, finalizeState opts nb st)
  | (.error m, nb, st) => (.error m, nb, st)

/-! ## The three-rule test scenario

The rules defined in `engine.test.ts` (`Init result`, `Increment count when
less than 3`, `Set flag when count equals 3`), over the test context
`{ startValue, endValue }`.  In the scenarios the `count` field only ever
holds a number and the `flag` field only ever holds a boolean, so the JS
coercions `result.count ?? 0` / `result.flag !== true` / `!result.flag` are
modelled on those shapes. -/

/-- The test context `{ startValue, endValue }`. -/
structure TestContext where
  startValue : Int
  endValue : Int

/-- `v ?? 0` for a numeric-or-absent result field. -/
def numOrZero : Option Value → Int
  | some (Value.num n) => n
  | _ => 0

/-- `Init result`: fires while `result.count == undefined`; sets
`count := context.startValue` and `flag := false`. -/
def initRule : Rule TestContext :=
  { name := some "Init result"
    evaluate := fun _ result => .ok (lookupResult result "count").isNone
    action := fun context _ =>
      .ok (some [("count", Value.num context.startValue), ("flag", Value.bool false)]) }

/-- `Increment count when less than 3`: fires while `result.flag !== true`
and `(result.count ?? 0) < context.endValue`; increments `count`. -/
def incrementRule : Rule TestContext :=
  { name := some "Increment count when less than 3"
    evaluate := fun context result =>
      .ok ((lookupResult result "flag" != some (Value.bool true)) &&
        decide (numOrZero (lookupResult result "count") < context.endValue))
    action := fun _ result =>
      .ok (some [("count", Value.num (numOrZero (lookupResult result "count") + 1))]) }

/-- `Set flag when count equals 3`: fires while
`result.count === context.endValue && !result.flag`; sets `flag := true`. -/
def setFlagRule : Rule TestContext :=
  { name := some "Set flag when count equals 3"
    evaluate := fun context result =>
      .ok ((lookupResult result "count" == some (Value.num context.endValue)) &&
        !(lookupResult result "flag" == some (Value.bool true)))
    action := fun _ _ => .ok (some [("flag", Value.bool true)]) }

/-- The ordered scenario rule list. -/
def scenarioRules : List (Rule TestContext) := [initRule, incrementRule, setFlagRule]

/-- Scenario B: context `{startValue: 1, endValue: 0}`, empty initial result,
default options. -/
def scenarioBOutcome : Except String ResMap × Nat × RunState :=
  run { startValue := 1, endValue := 0 } scenarioRules [] (defaultRunOptions TestContext)

/-! ## Auxiliary definitions for lemmas and witnesses -/

/-- The statistics totals, the two fields written only on normal loop exit. -/
def statsTotals (s : Option ExecutionStatistics) : Option (Nat × Nat) :=
  s.map (fun e => (e.totalIterations, e.totalTimeMs))

/-- The state after a successful predicate invocation during the scan. -/
def afterEvalOkState {C : Type} (opts : RunOptions C) (ruleName : String)
    (st : RunState) : RunState :=
  if opts.collectStats then
    { st with clock := st.clock + 1,
              stats := updateEvaluationStats st.stats ruleName 1 }
  else { st with clock := st.clock + 1 }

/-- The state after a predicate throw during the scan (the `onError`
invocation with phase `"evaluate"` recorded when configured). -/
def afterEvalErrorState {C : Type} (opts : RunOptions C) (enhanced : String)
    (st : RunState) : RunState :=
  { st with clock := st.clock + 1,
            errorLog := st.errorLog ++
              (if opts.onErrorConfigured then [(enhanced, "evaluate")] else []) }

/-- A state for exercising the scan: `count` initialised, flag unset. -/
def c1State : RunState :=
  { result := [("count", Value.num 0), ("flag", Value.bool false)]
    stats := none
    clock := 0
    errorLog := []
    actionInvocations := 0 }

/-- A result on which none of the scenario rules fires: `count` is set,
`flag` is already true. -/
def c8Result : ResMap := [("count", Value.num 5), ("flag", Value.bool true)]

/-- A rule over a trivial context whose predicate always fires and whose
action merges nothing. -/
def alwaysRule : Rule Unit :=
  { name := some "always"
    evaluate := fun _ _ => .ok true
    action := fun _ _ => .ok (some []) }

/-- Options with a cap of 2 and nothing else configured. -/
def capOptions : RunOptions Unit :=
  { maxIterations := some 2
    collectStats := false
    continueOnError := false
    onErrorConfigured := false
    beforeRule := none
    afterRule := none }

/-- Options with statistics collection and a cap of 1, for a run that is
sure to reject. -/
def capStatsOptions : RunOptions Unit :=
  { maxIterations := some 1
    collectStats := true
    continueOnError := false
    onErrorConfigured := false
    beforeRule := none
    afterRule := none }

/-- Options with only statistics collection enabled. -/
def statsOptions : RunOptions TestContext :=
  { maxIterations := none
    collectStats := true
    continueOnError := false
    onErrorConfigured := false
    beforeRule := none
    afterRule := none }

/-- An unnamed rule whose predicate throws. -/
def throwRule : Rule Unit :=
  { name := none
    evaluate := fun _ _ => .error "boom"
    action := fun _ _ => .ok none }

/-- A named rule whose predicate returns false. -/
def falseRule : Rule Unit :=
  { name := some "never"
    evaluate := fun _ _ => .ok false
    action := fun _ _ => .ok none }

/-- Options with only the error hook configured. -/
def errOptions : RunOptions Unit :=
  { maxIterations := none
    collectStats := false
    continueOnError := false
    onErrorConfigured := true
    beforeRule := none
    afterRule := none }

/-- The empty engine state used by the error-path witnesses. -/
def emptyState : RunState :=
  { result := [], stats := none, clock := 0, errorLog := [], actionInvocations := 0 }

/-- The state reached when the selected rule's action throws: the action
invocation is counted and timed, but no update is merged (the result is
exactly what it was), the statistics are untouched, and the `onError`
invocation with phase `"action"` is recorded when configured. -/
def actionThrowState {C : Type} (opts : RunOptions C) (ruleName : String) (m : String)
    (st : RunState) : RunState :=
  { actionStartState st with errorLog := st.errorLog ++
      (if opts.onErrorConfigured then [(execErrorMessage ruleName m, "action")] else []) }

/-- A named rule whose predicate always fires and whose action throws. -/
def badActionRule : Rule Unit :=
  { name := some "bad"
    evaluate := fun _ _ => .ok true
    action := fun _ _ => .error "kaboom" }

/-! ## Helper lemmas: result maps -/

theorem lookupResult_cons (p : String × Value) (l : ResMap) (k : String) :
    lookupResult (p :: l) k = if p.1 == k then some p.2 else lookupResult l k := by
  simp only [lookupResult, List.find?_cons]
  cases h : (p.1 == k) <;> simp [h]

theorem containsKey_cons (p : String × Value) (l : ResMap) (k : String) :
    containsKey (p :: l) k = (p.1 == k || containsKey l k) := by
  simp [containsKey]

theorem lookupResult_eq_none_of_not_containsKey (l : ResMap) (k : String)
    (h : containsKey l k = false) : lookupResult l k = none := by
  induction l with
  | nil => rfl
  | cons p l ih =>
    rw [containsKey_cons] at h
    rcases Bool.or_eq_false_iff.mp h with ⟨h1, h2⟩
    rw [lookupResult_cons, h1, if_neg (by simp)]
    exact ih h2

theorem mergeResult_nil (u : ResMap) : mergeResult [] u = u := rfl

theorem mergeResult_cons_mem (p : String × Value) (r u : ResMap)
    (h : containsKey u p.1 = true) : mergeResult (p :: r) u = mergeResult r u := by
  simp [mergeResult, List.filter_cons, h]

theorem mergeResult_cons_not_mem (p : String × Value) (r u : ResMap)
    (h : containsKey u p.1 = false) : mergeResult (p :: r) u = p :: mergeResult r u := by
  simp [mergeResult, List.filter_cons, h]

/-- A key of the merged object that the update holds is looked up in the
update: update keys overwrite. -/
theorem lookupResult_mergeResult_of_mem (r u : ResMap) (k : String)
    (h : containsKey u k = true) :
    lookupResult (mergeResult r u) k = lookupResult u k := by
  induction r with
  | nil => rw [mergeResult_nil]
  | cons p r ih =>
    by_cases hpk : p.1 = k
    · rw [mergeResult_cons_mem p r u (hpk ▸ h)]
      exact ih
    · by_cases hcu : containsKey u p.1
      · rw [mergeResult_cons_mem p r u hcu]
        exact ih
      · rw [mergeResult_cons_not_mem p r u (by simp [hcu]), lookupResult_cons,
          if_neg (by simp [hpk])]
        exact ih

/-- A key the update does not hold keeps its value from the original:
other keys are preserved. -/
theorem lookupResult_mergeResult_of_not_mem (r u : ResMap) (k : String)
    (h : containsKey u k = false) :
    lookupResult (mergeResult r u) k = lookupResult r k := by
  induction r with
  | nil =>
    rw [mergeResult_nil, lookupResult_eq_none_of_not_containsKey u k h]
    rfl
  | cons p r ih =>
    by_cases hpk : p.1 = k
    · rw [mergeResult_cons_not_mem p r u (hpk ▸ h), lookupResult_cons, lookupResult_cons,
        if_pos (by simp [hpk]), if_pos (by simp [hpk])]
    · by_cases hcu : containsKey u p.1
      · rw [mergeResult_cons_mem p r u hcu, lookupResult_cons, if_neg (by simp [hpk])]
        exact ih
      · rw [mergeResult_cons_not_mem p r u (by simp [hcu]), lookupResult_cons,
          lookupResult_cons, if_neg (by simp [hpk]), if_neg (by simp [hpk])]
        exact ih

/-- The merged object holds exactly the keys of the two operands: merging
never removes a key. -/
theorem containsKey_mergeResult (r u : ResMap) (k : String) :
    containsKey (mergeResult r u) k = (containsKey r k || containsKey u k) := by
  induction r with
  | nil => rw [mergeResult_nil]; simp [containsKey]
  | cons p r ih =>
    by_cases hcu : containsKey u p.1
    · rw [mergeResult_cons_mem p r u hcu, ih, containsKey_cons]
      by_cases hpk : p.1 = k
      · have hck : containsKey u k = true := hpk ▸ hcu
        simp [hpk, hck]
      · have hne : (p.1 == k) = false := by simp [hpk]
        rw [hne]
        simp
    · rw [mergeResult_cons_not_mem p r u (by simp [hcu]), containsKey_cons,
        containsKey_cons, ih]
      cases h1 : (p.1 == k) <;> simp

/-! ## Helper lemmas: statistics bookkeeping -/


theorem updateEvaluationStats_isSome (s : Option ExecutionStatistics) (n : String) (t : Nat) :
    (updateEvaluationStats s n t).isSome = s.isSome := by
  unfold updateEvaluationStats
  split
  · rfl
  · split <;> rfl

theorem updateExecutionStats_isSome (s : Option ExecutionStatistics) (n : String) (t : Nat) :
    (updateExecutionStats s n t).isSome = s.isSome := by
  unfold updateExecutionStats
  split
  · rfl
  · split <;> rfl

theorem updateEvaluationStats_totals (s : Option ExecutionStatistics) (n : String) (t : Nat) :
    statsTotals (updateEvaluationStats s n t) = statsTotals s := by
  unfold updateEvaluationStats
  split
  · rfl
  · split <;> rfl

theorem updateExecutionStats_totals (s : Option ExecutionStatistics) (n : String) (t : Nat) :
    statsTotals (updateExecutionStats s n t) = statsTotals s := by
  unfold updateExecutionStats
  split
  · rfl
  · split <;> rfl




@[simp] theorem afterEvalOkState_result {C : Type} (opts : RunOptions C) (n : String)
    (st : RunState) : (afterEvalOkState opts n st).result = st.result := by
  unfold afterEvalOkState; split <;> rfl

@[simp] theorem afterEvalOkState_actions {C : Type} (opts : RunOptions C) (n : String)
    (st : RunState) : (afterEvalOkState opts n st).actionInvocations = st.actionInvocations := by
  unfold afterEvalOkState; split <;> rfl

@[simp] theorem afterEvalOkState_clock {C : Type} (opts : RunOptions C) (n : String)
    (st : RunState) : (afterEvalOkState opts n st).clock = st.clock + 1 := by
  unfold afterEvalOkState; split <;> rfl

@[simp] theorem afterEvalOkState_errorLog {C : Type} (opts : RunOptions C) (n : String)
    (st : RunState) : (afterEvalOkState opts n st).errorLog = st.errorLog := by
  unfold afterEvalOkState; split <;> rfl

@[simp] theorem afterEvalOkState_stats_isSome {C : Type} (opts : RunOptions C) (n : String)
    (st : RunState) : (afterEvalOkState opts n st).stats.isSome = st.stats.isSome := by
  unfold afterEvalOkState
  split
  · exact updateEvaluationStats_isSome st.stats n 1
  · rfl

@[simp] theorem afterEvalOkState_totals {C : Type} (opts : RunOptions C) (n : String)
    (st : RunState) : statsTotals (afterEvalOkState opts n st).stats = statsTotals st.stats := by
  unfold afterEvalOkState
  split
  · exact updateEvaluationStats_totals st.stats n 1
  · rfl

@[simp] theorem afterEvalErrorState_result {C : Type} (opts : RunOptions C) (e : String)
    (st : RunState) : (afterEvalErrorState opts e st).result = st.result := rfl

@[simp] theorem afterEvalErrorState_actions {C : Type} (opts : RunOptions C) (e : String)
    (st : RunState) :
    (afterEvalErrorState opts e st).actionInvocations = st.actionInvocations := rfl

@[simp] theorem afterEvalErrorState_clock {C : Type} (opts : RunOptions C) (e : String)
    (st : RunState) : (afterEvalErrorState opts e st).clock = st.clock + 1 := rfl

@[simp] theorem afterEvalErrorState_stats {C : Type} (opts : RunOptions C) (e : String)
    (st : RunState) : (afterEvalErrorState opts e st).stats = st.stats := rfl

/-! ## Helper lemmas: the selection scan -/

theorem scanRules_nil {C : Type} (ctx : C) (opts : RunOptions C) (i : Nat) (st : RunState) :
    scanRules ctx opts [] i st = (.exhausted, st) := rfl

theorem scanRules_cons_ok_true {C : Type} (ctx : C) (opts : RunOptions C)
    (rule : Rule C) (rest : List (Rule C)) (i : Nat) (st : RunState)
    (hev : rule.evaluate ctx st.result = .ok true) :
    scanRules ctx opts (rule :: rest) i st =
      (.found i rule, afterEvalOkState opts (getRuleName rule i) st) := by
  simp [scanRules, hev, afterEvalOkState]

theorem scanRules_cons_ok_false {C : Type} (ctx : C) (opts : RunOptions C)
    (rule : Rule C) (rest : List (Rule C)) (i : Nat) (st : RunState)
    (hev : rule.evaluate ctx st.result = .ok false) :
    scanRules ctx opts (rule :: rest) i st =
      scanRules ctx opts rest (i + 1) (afterEvalOkState opts (getRuleName rule i) st) := by
  simp [scanRules, hev, afterEvalOkState]

theorem scanRules_cons_error_cont {C : Type} (ctx : C) (opts : RunOptions C)
    (rule : Rule C) (rest : List (Rule C)) (i : Nat) (st : RunState) (m : String)
    (hev : rule.evaluate ctx st.result = .error m)
    (hcont : opts.continueOnError = true) :
    scanRules ctx opts (rule :: rest) i st =
      scanRules ctx opts rest (i + 1)
        (afterEvalErrorState opts (evalErrorMessage (getRuleName rule i) m) st) := by
  simp [scanRules, hev, hcont, afterEvalErrorState]

theorem scanRules_cons_error_fatal {C : Type} (ctx : C) (opts : RunOptions C)
    (rule : Rule C) (rest : List (Rule C)) (i : Nat) (st : RunState) (m : String)
    (hev : rule.evaluate ctx st.result = .error m)
    (hcont : opts.continueOnError = false) :
    scanRules ctx opts (rule :: rest) i st =
      (.thrown (evalErrorMessage (getRuleName rule i) m),
        afterEvalErrorState opts (evalErrorMessage (getRuleName rule i) m) st) := by
  simp [scanRules, hev, hcont, afterEvalErrorState]

/-- The scan never changes the accumulating result. -/
theorem scanRules_result {C : Type} (ctx : C) (opts : RunOptions C) :
    ∀ (rs : List (Rule C)) (i : Nat) (st : RunState),
      ((scanRules ctx opts rs i st).2).result = st.result := by
  intro rs
  induction rs with
  | nil => intro i st; rfl
  | cons rule rest ih =>
    intro i st
    cases hev : rule.evaluate ctx st.result with
    | ok b =>
      cases b
      · rw [scanRules_cons_ok_false ctx opts rule rest i st hev, ih]
        simp
      · rw [scanRules_cons_ok_true ctx opts rule rest i st hev]
        simp
    | error m =>
      cases hcont : opts.continueOnError
      · rw [scanRules_cons_error_fatal ctx opts rule rest i st m hev hcont]
        simp
      · rw [scanRules_cons_error_cont ctx opts rule rest i st m hev hcont, ih]
        simp

/-- The scan never invokes an action. -/
theorem scanRules_actions {C : Type} (ctx : C) (opts : RunOptions C) :
    ∀ (rs : List (Rule C)) (i : Nat) (st : RunState),
      ((scanRules ctx opts rs i st).2).actionInvocations = st.actionInvocations := by
  intro rs
  induction rs with
  | nil => intro i st; rfl
  | cons rule rest ih =>
    intro i st
    cases hev : rule.evaluate ctx st.result with
    | ok b =>
      cases b
      · rw [scanRules_cons_ok_false ctx opts rule rest i st hev, ih]
        simp
      · rw [scanRules_cons_ok_true ctx opts rule rest i st hev]
        simp
    | error m =>
      cases hcont : opts.continueOnError
      · rw [scanRules_cons_error_fatal ctx opts rule rest i st m hev hcont]
        simp
      · rw [scanRules_cons_error_cont ctx opts rule rest i st m hev hcont, ih]
        simp

/-- The scan preserves whether a statistics object is present. -/
theorem scanRules_stats_isSome {C : Type} (ctx : C) (opts : RunOptions C) :
    ∀ (rs : List (Rule C)) (i : Nat) (st : RunState),
      ((scanRules ctx opts rs i st).2).stats.isSome = st.stats.isSome := by
  intro rs
  induction rs with
  | nil => intro i st; rfl
  | cons rule rest ih =>
    intro i st
    cases hev : rule.evaluate ctx st.result with
    | ok b =>
      cases b
      · rw [scanRules_cons_ok_false ctx opts rule rest i st hev, ih]
        simp
      · rw [scanRules_cons_ok_true ctx opts rule rest i st hev]
        simp
    | error m =>
      cases hcont : opts.continueOnError
      · rw [scanRules_cons_error_fatal ctx opts rule rest i st m hev hcont]
        simp
      · rw [scanRules_cons_error_cont ctx opts rule rest i st m hev hcont, ih]
        simp

/-- The scan never touches the statistics totals. -/
theorem scanRules_totals {C : Type} (ctx : C) (opts : RunOptions C) :
    ∀ (rs : List (Rule C)) (i : Nat) (st : RunState),
      statsTotals ((scanRules ctx opts rs i st).2).stats = statsTotals st.stats := by
  intro rs
  induction rs with
  | nil => intro i st; rfl
  | cons rule rest ih =>
    intro i st
    cases hev : rule.evaluate ctx st.result with
    | ok b =>
      cases b
      · rw [scanRules_cons_ok_false ctx opts rule rest i st hev, ih]
        simp
      · rw [scanRules_cons_ok_true ctx opts rule rest i st hev]
        simp
    | error m =>
      cases hcont : opts.continueOnError
      · rw [scanRules_cons_error_fatal ctx opts rule rest i st m hev hcont]
        simp
      · rw [scanRules_cons_error_cont ctx opts rule rest i st m hev hcont, ih]
        simp

/-- A single scan is one bounded pass: at most one predicate invocation per
rule in the list. -/
theorem scanRules_clock_le {C : Type} (ctx : C) (opts : RunOptions C) :
    ∀ (rs : List (Rule C)) (i : Nat) (st : RunState),
      ((scanRules ctx opts rs i st).2).clock ≤ st.clock + rs.length := by
  intro rs
  induction rs with
  | nil => intro i st; simp [scanRules_nil]
  | cons rule rest ih =>
    intro i st
    cases hev : rule.evaluate ctx st.result with
    | ok b =>
      cases b
      · rw [scanRules_cons_ok_false ctx opts rule rest i st hev]
        calc ((scanRules ctx opts rest (i + 1)
                (afterEvalOkState opts (getRuleName rule i) st)).2).clock
            ≤ (afterEvalOkState opts (getRuleName rule i) st).clock + rest.length := ih _ _
          _ = st.clock + 1 + rest.length := by simp
          _ ≤ st.clock + (rule :: rest).length := by
              simp only [List.length_cons]; omega
      · rw [scanRules_cons_ok_true ctx opts rule rest i st hev]
        simp only [afterEvalOkState_clock, List.length_cons]
        omega
    | error m =>
      cases hcont : opts.continueOnError
      · rw [scanRules_cons_error_fatal ctx opts rule rest i st m hev hcont]
        simp only [afterEvalErrorState_clock, List.length_cons]
        omega
      · rw [scanRules_cons_error_cont ctx opts rule rest i st m hev hcont]
        calc ((scanRules ctx opts rest (i + 1)
                (afterEvalErrorState opts (evalErrorMessage (getRuleName rule i) m) st)).2).clock
            ≤ (afterEvalErrorState opts (evalErrorMessage (getRuleName rule i) m) st).clock
                + rest.length := ih _ _
          _ = st.clock + 1 + rest.length := by simp
          _ ≤ st.clock + (rule :: rest).length := by
              simp only [List.length_cons]; omega

/-- The scan outcome only depends on the current result (statistics, clock
and log bookkeeping never influence selection). -/
theorem scanRules_outcome_det {C : Type} (ctx : C) (opts : RunOptions C) :
    ∀ (rs : List (Rule C)) (i : Nat) (st st' : RunState),
      st.result = st'.result →
      (scanRules ctx opts rs i st).1 = (scanRules ctx opts rs i st').1 := by
  intro rs
  induction rs with
  | nil => intro i st st' _; rfl
  | cons rule rest ih =>
    intro i st st' hres
    cases hev : rule.evaluate ctx st.result with
    | ok b =>
      have hev' : rule.evaluate ctx st'.result = .ok b := hres ▸ hev
      cases b
      · rw [scanRules_cons_ok_false ctx opts rule rest i st hev,
          scanRules_cons_ok_false ctx opts rule rest i st' hev']
        exact ih _ _ _ (by simp [hres])
      · rw [scanRules_cons_ok_true ctx opts rule rest i st hev,
          scanRules_cons_ok_true ctx opts rule rest i st' hev']
    | error m =>
      have hev' : rule.evaluate ctx st'.result = .error m := hres ▸ hev
      cases hcont : opts.continueOnError
      · rw [scanRules_cons_error_fatal ctx opts rule rest i st m hev hcont,
          scanRules_cons_error_fatal ctx opts rule rest i st' m hev' hcont]
      · rw [scanRules_cons_error_cont ctx opts rule rest i st m hev hcont,
          scanRules_cons_error_cont ctx opts rule rest i st' m hev' hcont]
        exact ih _ _ _ (by simp [hres])

/-- What a successful scan means: the found rule is the `k`-th of the list
scanned (absolute index `i + k`), its predicate returned true on the current
result, no earlier predicate did, and exactly `k + 1` predicates were
invoked. -/
theorem scanRules_found_spec {C : Type} (ctx : C) (opts : RunOptions C) :
    ∀ (rs : List (Rule C)) (i : Nat) (st : RunState) (j : Nat) (r : Rule C),
      (scanRules ctx opts rs i st).1 = .found j r →
      ∃ k, j = i + k ∧ rs.get? k = some r ∧
        r.evaluate ctx st.result = .ok true ∧
        (∀ m r', m < k → rs.get? m = some r' → r'.evaluate ctx st.result ≠ .ok true) ∧
        ((scanRules ctx opts rs i st).2).clock = st.clock + k + 1 := by
  intro rs
  induction rs with
  | nil => intro i st j r h; exact absurd h (by simp [scanRules_nil])
  | cons rule rest ih =>
    intro i st j r h
    cases hev : rule.evaluate ctx st.result with
    | ok b =>
      cases b
      · rw [scanRules_cons_ok_false ctx opts rule rest i st hev] at h
        obtain ⟨k, hk, hget, hev', hpre, hclock⟩ :=
          ih (i + 1) (afterEvalOkState opts (getRuleName rule i) st) j r h
        rw [afterEvalOkState_result] at hev' hpre
        refine ⟨k + 1, by omega, by simpa using hget, hev', ?_, ?_⟩
        · intro m r' hm hget'
          cases m with
          | zero =>
            simp only [List.get?_cons_zero, Option.some_inj] at hget'
            rw [← hget', hev]
            simp
          | succ m' =>
            exact hpre m' r' (by omega) (by simpa using hget')
        · rw [scanRules_cons_ok_false ctx opts rule rest i st hev, hclock]
          simp only [afterEvalOkState_clock]
          omega
      · rw [scanRules_cons_ok_true ctx opts rule rest i st hev] at h
        simp only at h
        obtain ⟨hj, hr⟩ : j = i ∧ r = rule := by
          cases h
          exact ⟨rfl, rfl⟩
        refine ⟨0, by omega, by simp [hr], by rw [hr]; exact hev, by omega, ?_⟩
        rw [scanRules_cons_ok_true ctx opts rule rest i st hev]
        simp
    | error m =>
      cases hcont : opts.continueOnError
      · rw [scanRules_cons_error_fatal ctx opts rule rest i st m hev hcont] at h
        exact absurd h (by simp)
      · rw [scanRules_cons_error_cont ctx opts rule rest i st m hev hcont] at h
        obtain ⟨k, hk, hget, hev', hpre, hclock⟩ :=
          ih (i + 1) (afterEvalErrorState opts (evalErrorMessage (getRuleName rule i) m) st) j r h
        rw [afterEvalErrorState_result] at hev' hpre
        refine ⟨k + 1, by omega, by simpa using hget, hev', ?_, ?_⟩
        · intro m' r' hm hget'
          cases m' with
          | zero =>
            simp only [List.get?_cons_zero, Option.some_inj] at hget'
            rw [← hget', hev]
            simp
          | succ m'' =>
            exact hpre m'' r' (by omega) (by simpa using hget')
        · rw [scanRules_cons_error_cont ctx opts rule rest i st m hev hcont, hclock]
          simp only [afterEvalErrorState_clock]
          omega

/-- An exhausted scan means no predicate returned true on the current
result. -/
theorem scanRules_exhausted_spec {C : Type} (ctx : C) (opts : RunOptions C) :
    ∀ (rs : List (Rule C)) (i : Nat) (st : RunState),
      (scanRules ctx opts rs i st).1 = .exhausted →
      ∀ r ∈ rs, r.evaluate ctx st.result ≠ .ok true := by
  intro rs
  induction rs with
  | nil => intro i st _ r hr; exact absurd hr (by simp)
  | cons rule rest ih =>
    intro i st h r hr
    cases hev : rule.evaluate ctx st.result with
    | ok b =>
      cases b
      · rw [scanRules_cons_ok_false ctx opts rule rest i st hev] at h
        rcases List.mem_cons.mp hr with hr0 | hr'
        · rw [hr0, hev]; simp
        · have := ih (i + 1) (afterEvalOkState opts (getRuleName rule i) st) h r hr'
          rwa [afterEvalOkState_result] at this
      · rw [scanRules_cons_ok_true ctx opts rule rest i st hev] at h
        exact absurd h (by simp)
    | error m =>
      cases hcont : opts.continueOnError
      · rw [scanRules_cons_error_fatal ctx opts rule rest i st m hev hcont] at h
        exact absurd h (by simp)
      · rw [scanRules_cons_error_cont ctx opts rule rest i st m hev hcont] at h
        rcases List.mem_cons.mp hr with hr0 | hr'
        · rw [hr0, hev]; simp
        · have := ih (i + 1)
            (afterEvalErrorState opts (evalErrorMessage (getRuleName rule i) m) st) h r hr'
          rwa [afterEvalErrorState_result] at this

/-- If every predicate returns false on the current result the scan
exhausts the list. -/
theorem scanRules_all_false {C : Type} (ctx : C) (opts : RunOptions C) :
    ∀ (rs : List (Rule C)) (i : Nat) (st : RunState),
      (∀ r ∈ rs, r.evaluate ctx st.result = .ok false) →
      (scanRules ctx opts rs i st).1 = .exhausted := by
  intro rs
  induction rs with
  | nil => intro i st _; simp [scanRules_nil]
  | cons rule rest ih =>
    intro i st hall
    have hev : rule.evaluate ctx st.result = .ok false := hall rule (by simp)
    rw [scanRules_cons_ok_false ctx opts rule rest i st hev]
    refine ih (i + 1) _ ?_
    intro r hr
    rw [afterEvalOkState_result]
    exact hall r (List.mem_cons_of_mem _ hr)

/-- If no predicate throws and some rule's predicate returns true on the
current result, the scan finds a rule of the list. -/
theorem scanRules_finds {C : Type} (ctx : C) (opts : RunOptions C) :
    ∀ (rs : List (Rule C)) (i : Nat) (st : RunState),
      (∀ r ∈ rs, ∃ b, r.evaluate ctx st.result = .ok b) →
      (∃ r ∈ rs, r.evaluate ctx st.result = .ok true) →
      ∃ j r', (scanRules ctx opts rs i st).1 = .found j r' ∧ r' ∈ rs := by
  intro rs
  induction rs with
  | nil => intro i st _ hex; exact absurd hex (by simp)
  | cons rule rest ih =>
    intro i st htotal hex
    obtain ⟨b, hev⟩ := htotal rule (by simp)
    cases b
    · rw [scanRules_cons_ok_false ctx opts rule rest i st hev]
      have hex' : ∃ r ∈ rest, r.evaluate ctx st.result = .ok true := by
        obtain ⟨r, hr, htrue⟩ := hex
        rcases List.mem_cons.mp hr with hr0 | hr'
        · rw [hr0] at htrue
          rw [htrue] at hev
          exact absurd hev (by simp)
        · exact ⟨r, hr', htrue⟩
      obtain ⟨j, r', hfound, hmem⟩ := ih (i + 1) (afterEvalOkState opts (getRuleName rule i) st)
        (by intro r hr; rw [afterEvalOkState_result]; exact htotal r (List.mem_cons_of_mem _ hr))
        (by obtain ⟨r, hr, ht⟩ := hex'
            exact ⟨r, hr, by rw [afterEvalOkState_result]; exact ht⟩)
      exact ⟨j, r', hfound, List.mem_cons_of_mem _ hmem⟩
    · rw [scanRules_cons_ok_true ctx opts rule rest i st hev]
      exact ⟨i, rule, rfl, by simp⟩

/-! ## Helper lemmas: the loop body -/

@[simp] theorem actionStartState_result (st : RunState) :
    (actionStartState st).result = st.result := rfl

@[simp] theorem actionStartState_actions (st : RunState) :
    (actionStartState st).actionInvocations = st.actionInvocations + 1 := rfl

@[simp] theorem actionStartState_errorLog (st : RunState) :
    (actionStartState st).errorLog = st.errorLog := rfl

@[simp] theorem actionStartState_stats (st : RunState) :
    (actionStartState st).stats = st.stats := rfl

@[simp] theorem afterActionOkState_actions {C : Type} (opts : RunOptions C) (n : String)
    (upd : Option ResMap) (st : RunState) :
    (afterActionOkState opts n upd st).actionInvocations = st.actionInvocations := by
  unfold afterActionOkState
  cases upd <;> split <;> rfl

@[simp] theorem afterActionOkState_errorLog {C : Type} (opts : RunOptions C) (n : String)
    (upd : Option ResMap) (st : RunState) :
    (afterActionOkState opts n upd st).errorLog = st.errorLog := by
  unfold afterActionOkState
  cases upd <;> split <;> rfl

@[simp] theorem afterActionOkState_stats_isSome {C : Type} (opts : RunOptions C) (n : String)
    (upd : Option ResMap) (st : RunState) :
    (afterActionOkState opts n upd st).stats.isSome = st.stats.isSome := by
  unfold afterActionOkState
  cases upd <;> split <;> simp [updateExecutionStats_isSome]

@[simp] theorem afterActionOkState_totals {C : Type} (opts : RunOptions C) (n : String)
    (upd : Option ResMap) (st : RunState) :
    statsTotals (afterActionOkState opts n upd st).stats = statsTotals st.stats := by
  unfold afterActionOkState
  cases upd <;> split <;> simp [updateExecutionStats_totals]

theorem afterActionOkState_keys {C : Type} (opts : RunOptions C) (n : String)
    (upd : Option ResMap) (st : RunState) (k : String)
    (h : containsKey st.result k = true) :
    containsKey (afterActionOkState opts n upd st).result k = true := by
  unfold afterActionOkState
  cases upd with
  | none => split <;> exact h
  | some u =>
    split <;> simp only [containsKey_mergeResult] <;> rw [h] <;> rfl

/-- `execActionPhase` leaves the pair in one of three shapes, all sharing
the bookkeeping facts we need. -/
theorem execActionPhase_state {C : Type} (ctx : C) (opts : RunOptions C) (rule : Rule C)
    (n : String) (st : RunState) :
    (execActionPhase ctx opts rule n st).1 = actionStartState st ∨
    ∃ upd, rule.action ctx st.result = .ok upd ∧
      (execActionPhase ctx opts rule n st).1 =
        afterActionOkState opts n upd (actionStartState st) := by
  unfold execActionPhase
  cases hact : rule.action ctx st.result with
  | error m => exact Or.inl rfl
  | ok upd =>
    refine Or.inr ⟨upd, rfl, ?_⟩
    simp only
    cases hafter : opts.afterRule with
    | none => rfl
    | some hook =>
      cases hres : hook rule ctx (afterActionOkState opts n upd (actionStartState st)).result upd with
      | error m => simp [hres]
      | ok u => simp [hres]

theorem execActionPhase_actions {C : Type} (ctx : C) (opts : RunOptions C) (rule : Rule C)
    (n : String) (st : RunState) :
    ((execActionPhase ctx opts rule n st).1).actionInvocations = st.actionInvocations + 1 := by
  rcases execActionPhase_state ctx opts rule n st with h | ⟨upd, _, h⟩ <;> rw [h] <;> simp

theorem execActionPhase_errorLog {C : Type} (ctx : C) (opts : RunOptions C) (rule : Rule C)
    (n : String) (st : RunState) :
    ((execActionPhase ctx opts rule n st).1).errorLog = st.errorLog := by
  rcases execActionPhase_state ctx opts rule n st with h | ⟨upd, _, h⟩ <;> rw [h] <;> simp

theorem execActionPhase_stats_isSome {C : Type} (ctx : C) (opts : RunOptions C) (rule : Rule C)
    (n : String) (st : RunState) :
    ((execActionPhase ctx opts rule n st).1).stats.isSome = st.stats.isSome := by
  rcases execActionPhase_state ctx opts rule n st with h | ⟨upd, _, h⟩ <;> rw [h] <;> simp

theorem execActionPhase_totals {C : Type} (ctx : C) (opts : RunOptions C) (rule : Rule C)
    (n : String) (st : RunState) :
    statsTotals ((execActionPhase ctx opts rule n st).1).stats = statsTotals st.stats := by
  rcases execActionPhase_state ctx opts rule n st with h | ⟨upd, _, h⟩ <;> rw [h] <;> simp

/-- Whatever the body does, existing result keys survive: the result is
either untouched or shallow-merged with an update. -/
theorem execActionPhase_keys {C : Type} (ctx : C) (opts : RunOptions C) (rule : Rule C)
    (n : String) (st : RunState) (k : String) (h : containsKey st.result k = true) :
    containsKey ((execActionPhase ctx opts rule n st).1).result k = true := by
  rcases execActionPhase_state ctx opts rule n st with heq | ⟨upd, _, heq⟩
  · rw [heq]; exact h
  · rw [heq]
    exact afterActionOkState_keys opts n upd (actionStartState st) k h

theorem tryExecuteRule_actions_le {C : Type} (ctx : C) (opts : RunOptions C) (rule : Rule C)
    (n : String) (st : RunState) :
    st.actionInvocations ≤ ((tryExecuteRule ctx opts rule n st).1).actionInvocations ∧
    ((tryExecuteRule ctx opts rule n st).1).actionInvocations ≤ st.actionInvocations + 1 := by
  unfold tryExecuteRule
  split
  · split
    · exact ⟨Nat.le_refl _, Nat.le_succ _⟩
    · rw [execActionPhase_actions]
      omega
  · rw [execActionPhase_actions]
    omega

theorem tryExecuteRule_errorLog {C : Type} (ctx : C) (opts : RunOptions C) (rule : Rule C)
    (n : String) (st : RunState) :
    ((tryExecuteRule ctx opts rule n st).1).errorLog = st.errorLog := by
  unfold tryExecuteRule
  split
  · split
    · rfl
    · exact execActionPhase_errorLog ctx opts rule n st
  · exact execActionPhase_errorLog ctx opts rule n st

theorem tryExecuteRule_stats_isSome {C : Type} (ctx : C) (opts : RunOptions C) (rule : Rule C)
    (n : String) (st : RunState) :
    ((tryExecuteRule ctx opts rule n st).1).stats.isSome = st.stats.isSome := by
  unfold tryExecuteRule
  split
  · split
    · rfl
    · exact execActionPhase_stats_isSome ctx opts rule n st
  · exact execActionPhase_stats_isSome ctx opts rule n st

theorem tryExecuteRule_totals {C : Type} (ctx : C) (opts : RunOptions C) (rule : Rule C)
    (n : String) (st : RunState) :
    statsTotals ((tryExecuteRule ctx opts rule n st).1).stats = statsTotals st.stats := by
  unfold tryExecuteRule
  split
  · split
    · rfl
    · exact execActionPhase_totals ctx opts rule n st
  · exact execActionPhase_totals ctx opts rule n st

theorem tryExecuteRule_keys {C : Type} (ctx : C) (opts : RunOptions C) (rule : Rule C)
    (n : String) (st : RunState) (k : String) (h : containsKey st.result k = true) :
    containsKey ((tryExecuteRule ctx opts rule n st).1).result k = true := by
  unfold tryExecuteRule
  split
  · split
    · exact h
    · exact execActionPhase_keys ctx opts rule n st k h
  · exact execActionPhase_keys ctx opts rule n st k h

/-! ## Helper lemmas: the main loop -/

theorem runLoop_thrown {C : Type} (ctx : C) (rules : List (Rule C)) (opts : RunOptions C)
    (maxI fuel nb : Nat) (m : String) (st : RunState) :
    runLoop ctx rules opts maxI fuel nb (.thrown m) st = (.error m, nb, st) := by
  cases fuel <;> rfl

theorem runLoop_exhausted {C : Type} (ctx : C) (rules : List (Rule C)) (opts : RunOptions C)
    (maxI fuel nb : Nat) (st : RunState) :
    runLoop ctx rules opts maxI fuel nb .exhausted st = (.ok st.result, nb, st) := by
  cases fuel <;> rfl

theorem runLoop_found_zero {C : Type} (ctx : C) (rules : List (Rule C)) (opts : RunOptions C)
    (maxI nb : Nat) (i : Nat) (r : Rule C) (st : RunState) :
    runLoop ctx rules opts maxI 0 nb (.found i r) st =
      (.error (maxIterationsMessage maxI), nb + 1, st) := rfl

theorem runLoop_found_succ_ok {C : Type} (ctx : C) (rules : List (Rule C)) (opts : RunOptions C)
    (maxI fuel nb : Nat) (i : Nat) (r : Rule C) (st st' : RunState)
    (hbody : tryExecuteRule ctx opts r (getRuleName r i) st = (st', none)) :
    runLoop ctx rules opts maxI (fuel + 1) nb (.found i r) st =
      runLoop ctx rules opts maxI fuel (nb + 1)
        (getNextRuleToEvaluate ctx rules opts st').1
        (getNextRuleToEvaluate ctx rules opts st').2 := by
  simp only [runLoop, hbody]

theorem runLoop_found_succ_err_cont {C : Type} (ctx : C) (rules : List (Rule C))
    (opts : RunOptions C) (maxI fuel nb : Nat) (i : Nat) (r : Rule C) (st st' : RunState)
    (m : String)
    (hbody : tryExecuteRule ctx opts r (getRuleName r i) st = (st', some m))
    (hcont : opts.continueOnError = true) :
    runLoop ctx rules opts maxI (fuel + 1) nb (.found i r) st =
      runLoop ctx rules opts maxI fuel (nb + 1)
        (getNextRuleToEvaluate ctx rules opts
          { st' with errorLog := st'.errorLog ++
            (if opts.onErrorConfigured then
              [(execErrorMessage (getRuleName r i) m, "action")] else []) }).1
        (getNextRuleToEvaluate ctx rules opts
          { st' with errorLog := st'.errorLog ++
            (if opts.onErrorConfigured then
              [(execErrorMessage (getRuleName r i) m, "action")] else []) }).2 := by
  simp only [runLoop, hbody, hcont, if_true]

theorem runLoop_found_succ_err_fatal {C : Type} (ctx : C) (rules : List (Rule C))
    (opts : RunOptions C) (maxI fuel nb : Nat) (i : Nat) (r : Rule C) (st st' : RunState)
    (m : String)
    (hbody : tryExecuteRule ctx opts r (getRuleName r i) st = (st', some m))
    (hcont : opts.continueOnError = false) :
    runLoop ctx rules opts maxI (fuel + 1) nb (.found i r) st =
      (.error (execErrorMessage (getRuleName r i) m), nb + 1,
        { st' with errorLog := st'.errorLog ++
          (if opts.onErrorConfigured then
            [(execErrorMessage (getRuleName r i) m, "action")] else []) }) := by
  simp only [runLoop, hbody, hcont]
  rfl

/-! Scan lemmas restated for `getNextRuleToEvaluate`. -/

theorem getNext_result {C : Type} (ctx : C) (rules : List (Rule C)) (opts : RunOptions C)
    (st : RunState) :
    ((getNextRuleToEvaluate ctx rules opts st).2).result = st.result :=
  scanRules_result ctx opts rules 0 st

theorem getNext_actions {C : Type} (ctx : C) (rules : List (Rule C)) (opts : RunOptions C)
    (st : RunState) :
    ((getNextRuleToEvaluate ctx rules opts st).2).actionInvocations = st.actionInvocations :=
  scanRules_actions ctx opts rules 0 st

theorem getNext_stats_isSome {C : Type} (ctx : C) (rules : List (Rule C)) (opts : RunOptions C)
    (st : RunState) :
    ((getNextRuleToEvaluate ctx rules opts st).2).stats.isSome = st.stats.isSome :=
  scanRules_stats_isSome ctx opts rules 0 st

theorem getNext_totals {C : Type} (ctx : C) (rules : List (Rule C)) (opts : RunOptions C)
    (st : RunState) :
    statsTotals ((getNextRuleToEvaluate ctx rules opts st).2).stats = statsTotals st.stats :=
  scanRules_totals ctx opts rules 0 st

theorem getNext_outcome_det {C : Type} (ctx : C) (rules : List (Rule C)) (opts : RunOptions C)
    (st st' : RunState) (h : st.result = st'.result) :
    (getNextRuleToEvaluate ctx rules opts st).1 = (getNextRuleToEvaluate ctx rules opts st').1 :=
  scanRules_outcome_det ctx opts rules 0 st st' h

/-- The final iteration counter is bounded by the remaining fuel plus one
(the one accounting for the cap-exceeded increment). -/
theorem runLoop_nb_le {C : Type} (ctx : C) (rules : List (Rule C)) (opts : RunOptions C)
    (maxI : Nat) :
    ∀ (fuel nb : Nat) (scan : ScanOutcome C) (st : RunState),
      (runLoop ctx rules opts maxI fuel nb scan st).2.1 ≤ nb + fuel + 1 := by
  intro fuel
  induction fuel with
  | zero =>
    intro nb scan st
    cases scan with
    | thrown m => rw [runLoop_thrown]; show nb ≤ nb + 0 + 1; omega
    | exhausted => rw [runLoop_exhausted]; show nb ≤ nb + 0 + 1; omega
    | found i r => rw [runLoop_found_zero]
  | succ fuel ih =>
    intro nb scan st
    cases scan with
    | thrown m => rw [runLoop_thrown]; show nb ≤ nb + (fuel + 1) + 1; omega
    | exhausted => rw [runLoop_exhausted]; show nb ≤ nb + (fuel + 1) + 1; omega
    | found i r =>
      rcases hbody : tryExecuteRule ctx opts r (getRuleName r i) st with ⟨st', om⟩
      cases om with
      | none =>
        rw [runLoop_found_succ_ok ctx rules opts maxI fuel nb i r st st' hbody]
        have := ih (nb + 1) (getNextRuleToEvaluate ctx rules opts st').1
          (getNextRuleToEvaluate ctx rules opts st').2
        omega
      | some m =>
        cases hcont : opts.continueOnError
        · rw [runLoop_found_succ_err_fatal ctx rules opts maxI fuel nb i r st st' m hbody hcont]
          show nb + 1 ≤ nb + (fuel + 1) + 1
          omega
        · rw [runLoop_found_succ_err_cont ctx rules opts maxI fuel nb i r st st' m hbody hcont]
          have := ih (nb + 1)
            (getNextRuleToEvaluate ctx rules opts
              { st' with errorLog := st'.errorLog ++
                (if opts.onErrorConfigured then
                  [(execErrorMessage (getRuleName r i) m, "action")] else []) }).1
            (getNextRuleToEvaluate ctx rules opts
              { st' with errorLog := st'.errorLog ++
                (if opts.onErrorConfigured then
                  [(execErrorMessage (getRuleName r i) m, "action")] else []) }).2
          omega

/-- At most one action invocation per unit of fuel. -/
theorem runLoop_actions_le {C : Type} (ctx : C) (rules : List (Rule C)) (opts : RunOptions C)
    (maxI : Nat) :
    ∀ (fuel nb : Nat) (scan : ScanOutcome C) (st : RunState),
      ((runLoop ctx rules opts maxI fuel nb scan st).2.2).actionInvocations ≤
        st.actionInvocations + fuel := by
  intro fuel
  induction fuel with
  | zero =>
    intro nb scan st
    cases scan with
    | thrown m =>
      rw [runLoop_thrown]
      show st.actionInvocations ≤ st.actionInvocations + 0
      omega
    | exhausted =>
      rw [runLoop_exhausted]
      show st.actionInvocations ≤ st.actionInvocations + 0
      omega
    | found i r =>
      rw [runLoop_found_zero]
      show st.actionInvocations ≤ st.actionInvocations + 0
      omega
  | succ fuel ih =>
    intro nb scan st
    cases scan with
    | thrown m =>
      rw [runLoop_thrown]
      show st.actionInvocations ≤ st.actionInvocations + (fuel + 1)
      omega
    | exhausted =>
      rw [runLoop_exhausted]
      show st.actionInvocations ≤ st.actionInvocations + (fuel + 1)
      omega
    | found i r =>
      rcases hbody : tryExecuteRule ctx opts r (getRuleName r i) st with ⟨st', om⟩
      have hst' : st'.actionInvocations ≤ st.actionInvocations + 1 := by
        have := (tryExecuteRule_actions_le ctx opts r (getRuleName r i) st).2
        rw [hbody] at this
        exact this
      cases om with
      | none =>
        rw [runLoop_found_succ_ok ctx rules opts maxI fuel nb i r st st' hbody]
        have hscan := getNext_actions ctx rules opts st'
        have := ih (nb + 1) (getNextRuleToEvaluate ctx rules opts st').1
          (getNextRuleToEvaluate ctx rules opts st').2
        omega
      | some m =>
        cases hcont : opts.continueOnError
        · rw [runLoop_found_succ_err_fatal ctx rules opts maxI fuel nb i r st st' m hbody hcont]
          show st'.actionInvocations ≤ st.actionInvocations + (fuel + 1)
          omega
        · rw [runLoop_found_succ_err_cont ctx rules opts maxI fuel nb i r st st' m hbody hcont]
          have hscan := getNext_actions ctx rules opts
            { st' with errorLog := st'.errorLog ++
              (if opts.onErrorConfigured then
                [(execErrorMessage (getRuleName r i) m, "action")] else []) }
          have := ih (nb + 1)
            (getNextRuleToEvaluate ctx rules opts
              { st' with errorLog := st'.errorLog ++
                (if opts.onErrorConfigured then
                  [(execErrorMessage (getRuleName r i) m, "action")] else []) }).1
            (getNextRuleToEvaluate ctx rules opts
              { st' with errorLog := st'.errorLog ++
                (if opts.onErrorConfigured then
                  [(execErrorMessage (getRuleName r i) m, "action")] else []) }).2
          have hupd : ({ st' with errorLog := st'.errorLog ++
              (if opts.onErrorConfigured then
                [(execErrorMessage (getRuleName r i) m, "action")] else []) } :
                RunState).actionInvocations = st'.actionInvocations := rfl
          omega

/-- The loop never writes the statistics totals (only `run` does, on the
normal-exit path). -/
theorem runLoop_totals {C : Type} (ctx : C) (rules : List (Rule C)) (opts : RunOptions C)
    (maxI : Nat) :
    ∀ (fuel nb : Nat) (scan : ScanOutcome C) (st : RunState),
      statsTotals ((runLoop ctx rules opts maxI fuel nb scan st).2.2).stats =
        statsTotals st.stats := by
  intro fuel
  induction fuel with
  | zero =>
    intro nb scan st
    cases scan with
    | thrown m => rw [runLoop_thrown]
    | exhausted => rw [runLoop_exhausted]
    | found i r => rw [runLoop_found_zero]
  | succ fuel ih =>
    intro nb scan st
    cases scan with
    | thrown m => rw [runLoop_thrown]
    | exhausted => rw [runLoop_exhausted]
    | found i r =>
      rcases hbody : tryExecuteRule ctx opts r (getRuleName r i) st with ⟨st', om⟩
      have hst' : statsTotals st'.stats = statsTotals st.stats := by
        have := tryExecuteRule_totals ctx opts r (getRuleName r i) st
        rw [hbody] at this
        exact this
      cases om with
      | none =>
        rw [runLoop_found_succ_ok ctx rules opts maxI fuel nb i r st st' hbody]
        rw [ih (nb + 1) _ _, getNext_totals ctx rules opts st', hst']
      | some m =>
        cases hcont : opts.continueOnError
        · rw [runLoop_found_succ_err_fatal ctx rules opts maxI fuel nb i r st st' m hbody hcont]
          exact hst'
        · rw [runLoop_found_succ_err_cont ctx rules opts maxI fuel nb i r st st' m hbody hcont]
          rw [ih (nb + 1) _ _, getNext_totals ctx rules opts _]
          exact hst'

/-- The loop preserves the presence of the statistics object. -/
theorem runLoop_stats_isSome {C : Type} (ctx : C) (rules : List (Rule C)) (opts : RunOptions C)
    (maxI : Nat) :
    ∀ (fuel nb : Nat) (scan : ScanOutcome C) (st : RunState),
      ((runLoop ctx rules opts maxI fuel nb scan st).2.2).stats.isSome = st.stats.isSome := by
  intro fuel
  induction fuel with
  | zero =>
    intro nb scan st
    cases scan with
    | thrown m => rw [runLoop_thrown]
    | exhausted => rw [runLoop_exhausted]
    | found i r => rw [runLoop_found_zero]
  | succ fuel ih =>
    intro nb scan st
    cases scan with
    | thrown m => rw [runLoop_thrown]
    | exhausted => rw [runLoop_exhausted]
    | found i r =>
      rcases hbody : tryExecuteRule ctx opts r (getRuleName r i) st with ⟨st', om⟩
      have hst' : st'.stats.isSome = st.stats.isSome := by
        have := tryExecuteRule_stats_isSome ctx opts r (getRuleName r i) st
        rw [hbody] at this
        exact this
      cases om with
      | none =>
        rw [runLoop_found_succ_ok ctx rules opts maxI fuel nb i r st st' hbody]
        rw [ih (nb + 1) _ _, getNext_stats_isSome ctx rules opts st', hst']
      | some m =>
        cases hcont : opts.continueOnError
        · rw [runLoop_found_succ_err_fatal ctx rules opts maxI fuel nb i r st st' m hbody hcont]
          exact hst'
        · rw [runLoop_found_succ_err_cont ctx rules opts maxI fuel nb i r st st' m hbody hcont]
          rw [ih (nb + 1) _ _, getNext_stats_isSome ctx rules opts _]
          exact hst'

/-- No step of the loop ever removes a key from the result. -/
theorem runLoop_keys_mono {C : Type} (ctx : C) (rules : List (Rule C)) (opts : RunOptions C)
    (maxI : Nat) :
    ∀ (fuel nb : Nat) (scan : ScanOutcome C) (st : RunState) (k : String),
      containsKey st.result k = true →
      containsKey ((runLoop ctx rules opts maxI fuel nb scan st).2.2).result k = true := by
  intro fuel
  induction fuel with
  | zero =>
    intro nb scan st k h
    cases scan with
    | thrown m => rw [runLoop_thrown]; exact h
    | exhausted => rw [runLoop_exhausted]; exact h
    | found i r => rw [runLoop_found_zero]; exact h
  | succ fuel ih =>
    intro nb scan st k h
    cases scan with
    | thrown m => rw [runLoop_thrown]; exact h
    | exhausted => rw [runLoop_exhausted]; exact h
    | found i r =>
      rcases hbody : tryExecuteRule ctx opts r (getRuleName r i) st with ⟨st', om⟩
      have hst' : containsKey st'.result k = true := by
        have := tryExecuteRule_keys ctx opts r (getRuleName r i) st k h
        rw [hbody] at this
        exact this
      cases om with
      | none =>
        rw [runLoop_found_succ_ok ctx rules opts maxI fuel nb i r st st' hbody]
        refine ih (nb + 1) _ _ k ?_
        rw [getNext_result ctx rules opts st']
        exact hst'
      | some m =>
        cases hcont : opts.continueOnError
        · rw [runLoop_found_succ_err_fatal ctx rules opts maxI fuel nb i r st st' m hbody hcont]
          exact hst'
        · rw [runLoop_found_succ_err_cont ctx rules opts maxI fuel nb i r st st' m hbody hcont]
          refine ih (nb + 1) _ _ k ?_
          rw [getNext_result ctx rules opts _]
          exact hst'

/-! ## Helper lemmas: body outcome characterisations -/

/-- The body either aborts on a `beforeRule` throw with the state
untouched, or proceeds to the action phase. -/
theorem tryExecuteRule_cases {C : Type} (ctx : C) (opts : RunOptions C) (rule : Rule C)
    (n : String) (st : RunState) :
    (∃ f m, opts.beforeRule = some f ∧ f rule ctx st.result = .error m ∧
      tryExecuteRule ctx opts rule n st = (st, some m)) ∨
    tryExecuteRule ctx opts rule n st = execActionPhase ctx opts rule n st := by
  unfold tryExecuteRule
  cases hbefore : opts.beforeRule with
  | none => exact Or.inr rfl
  | some f =>
    cases hf : f rule ctx st.result with
    | error m =>
      refine Or.inl ⟨f, m, rfl, hf, ?_⟩
      simp only [hf]
    | ok u =>
      refine Or.inr ?_
      simp only [hf]

/-- With no hooks configured and a non-throwing action, the body completes
and invokes the action exactly once. -/
theorem tryExecuteRule_total {C : Type} (ctx : C) (opts : RunOptions C) (rule : Rule C)
    (n : String) (st : RunState)
    (hbefore : opts.beforeRule = none) (hafter : opts.afterRule = none)
    (hact : ∃ u, rule.action ctx st.result = .ok u) :
    (tryExecuteRule ctx opts rule n st).2 = none ∧
    ((tryExecuteRule ctx opts rule n st).1).actionInvocations = st.actionInvocations + 1 := by
  obtain ⟨u, hu⟩ := hact
  rcases tryExecuteRule_cases ctx opts rule n st with ⟨f, m, hf, _, _⟩ | heq
  · rw [hbefore] at hf
    cases hf
  · rw [heq]
    unfold execActionPhase
    simp only [hu, hafter]
    constructor
    · trivial
    · simp

/-- A body that completes invoked the action (the only way to skip the
action is a `beforeRule` throw, which reports a message). -/
theorem tryExecuteRule_none_actions {C : Type} (ctx : C) (opts : RunOptions C) (rule : Rule C)
    (n : String) (st : RunState)
    (h : (tryExecuteRule ctx opts rule n st).2 = none) :
    ((tryExecuteRule ctx opts rule n st).1).actionInvocations = st.actionInvocations + 1 := by
  rcases tryExecuteRule_cases ctx opts rule n st with ⟨f, m, _, _, heq⟩ | heq
  · rw [heq] at h
    cases h
  · rw [heq]
    exact execActionPhase_actions ctx opts rule n st

/-- A `beforeRule` throw aborts the body before the action: the state is
returned untouched with the raw message. -/
theorem tryExecuteRule_before_throw {C : Type} (ctx : C) (opts : RunOptions C) (rule : Rule C)
    (n : String) (st : RunState) (f : Rule C → C → ResMap → Except String Unit) (m : String)
    (hbefore : opts.beforeRule = some f) (hm : f rule ctx st.result = .error m) :
    tryExecuteRule ctx opts rule n st = (st, some m) := by
  unfold tryExecuteRule
  rw [hbefore]
  simp only [hm]

/-- If the body reports a throw, either the action was still invoked (it was
the thrower, or the `afterRule` hook was), or a `beforeRule` hook threw and
the state is untouched. -/
theorem tryExecuteRule_some_cases {C : Type} (ctx : C) (opts : RunOptions C) (rule : Rule C)
    (n : String) (st : RunState) (m : String)
    (h : (tryExecuteRule ctx opts rule n st).2 = some m) :
    ((tryExecuteRule ctx opts rule n st).1).actionInvocations = st.actionInvocations + 1 ∨
    (∃ f, opts.beforeRule = some f ∧ f rule ctx st.result = .error m ∧
      (tryExecuteRule ctx opts rule n st).1 = st) := by
  rcases tryExecuteRule_cases ctx opts rule n st with ⟨f, m0, hf, herr, heq⟩ | heq
  · rw [heq] at h
    have hm0 : m0 = m := by
      simpa using h
    subst hm0
    exact Or.inr ⟨f, hf, herr, by rw [heq]⟩
  · rw [heq]
    exact Or.inl (execActionPhase_actions ctx opts rule n st)

/-! ## Helper lemmas: the iteration cap (always-matching rule sets) -/

/-- With total rules, one of which always matches, and no hooks, the loop
always exhausts its fuel: the outcome is the cap error after executing
exactly `fuel` actions, with the counter at `nb + fuel + 1`. -/
theorem runLoop_cap {C : Type} (ctx : C) (rules : List (Rule C)) (opts : RunOptions C)
    (maxI : Nat)
    (hbefore : opts.beforeRule = none) (hafter : opts.afterRule = none)
    (hEvalTotal : ∀ r ∈ rules, ∀ res : ResMap, ∃ b, r.evaluate ctx res = .ok b)
    (hActTotal : ∀ r ∈ rules, ∀ res : ResMap, ∃ u, r.action ctx res = .ok u)
    (hAlways : ∃ r ∈ rules, ∀ res : ResMap, r.evaluate ctx res = .ok true) :
    ∀ (fuel nb : Nat) (i : Nat) (r : Rule C) (st : RunState), r ∈ rules →
      (runLoop ctx rules opts maxI fuel nb (.found i r) st).1 =
          .error (maxIterationsMessage maxI) ∧
      (runLoop ctx rules opts maxI fuel nb (.found i r) st).2.1 = nb + fuel + 1 ∧
      ((runLoop ctx rules opts maxI fuel nb (.found i r) st).2.2).actionInvocations =
          st.actionInvocations + fuel := by
  intro fuel
  induction fuel with
  | zero =>
    intro nb i r st _
    rw [runLoop_found_zero]
    exact ⟨rfl, rfl, rfl⟩
  | succ fuel ih =>
    intro nb i r st hmem
    have hbody := tryExecuteRule_total ctx opts r (getRuleName r i) st hbefore hafter
      (hActTotal r hmem st.result)
    rcases hb : tryExecuteRule ctx opts r (getRuleName r i) st with ⟨st', om⟩
    rw [hb] at hbody
    obtain ⟨hnone, hactions⟩ := hbody
    simp only at hnone hactions
    subst hnone
    rw [runLoop_found_succ_ok ctx rules opts maxI fuel nb i r st st' hb]
    have hfind := scanRules_finds ctx opts rules 0 st'
      (by intro r2 h2; exact hEvalTotal r2 h2 st'.result)
      (by obtain ⟨r2, h2, ht⟩ := hAlways; exact ⟨r2, h2, ht st'.result⟩)
    obtain ⟨j, r2, hscan, hmem2⟩ := hfind
    have hscan' : (getNextRuleToEvaluate ctx rules opts st').1 = .found j r2 := hscan
    rw [hscan']
    obtain ⟨h1, h2, h3⟩ := ih (nb + 1) j r2 (getNextRuleToEvaluate ctx rules opts st').2 hmem2
    refine ⟨h1, by omega, ?_⟩
    rw [h3, getNext_actions ctx rules opts st', hactions]
    omega

/-! ## Helper lemmas: a throwing `beforeRule` hook wedges the loop -/

/-- If the selected rule's `beforeRule` invocation throws on the current
result and the errors are being swallowed, the result never changes again,
the same rule keeps being selected, and the loop can only end in an error
(the cap, or the propagated wrap). -/
theorem runLoop_before_throw_stuck {C : Type} (ctx : C) (rules : List (Rule C))
    (opts : RunOptions C) (maxI : Nat) (i : Nat) (r : Rule C)
    (f : Rule C → C → ResMap → Except String Unit) (R : ResMap) (m : String)
    (hbefore : opts.beforeRule = some f) (hm : f r ctx R = .error m)
    (hfound : ∀ st : RunState, st.result = R →
      (getNextRuleToEvaluate ctx rules opts st).1 = .found i r) :
    ∀ (fuel nb : Nat) (st : RunState), st.result = R →
      ∃ e, (runLoop ctx rules opts maxI fuel nb (.found i r) st).1 = .error e := by
  intro fuel
  induction fuel with
  | zero =>
    intro nb st _
    rw [runLoop_found_zero]
    exact ⟨maxIterationsMessage maxI, rfl⟩
  | succ fuel ih =>
    intro nb st hres
    have hbody : tryExecuteRule ctx opts r (getRuleName r i) st = (st, some m) :=
      tryExecuteRule_before_throw ctx opts r (getRuleName r i) st f m hbefore (hres ▸ hm)
    cases hcont : opts.continueOnError
    · rw [runLoop_found_succ_err_fatal ctx rules opts maxI fuel nb i r st st m hbody hcont]
      exact ⟨execErrorMessage (getRuleName r i) m, rfl⟩
    · rw [runLoop_found_succ_err_cont ctx rules opts maxI fuel nb i r st st m hbody hcont]
      have hres2 : ({ st with errorLog := st.errorLog ++
          (if opts.onErrorConfigured then
            [(execErrorMessage (getRuleName r i) m, "action")] else []) } :
          RunState).result = R := hres
      have hscan := hfound _ hres2
      rw [hscan]
      refine ih (nb + 1) _ ?_
      rw [getNext_result ctx rules opts _]
      exact hres2

/-! ## Helper lemmas: normal termination counts one action per iteration -/

/-- If the loop exits normally (no throw, no cap), every counted iteration
invoked its selected rule's action exactly once.  The consistency premise
says the scan argument is what scanning the current state would produce,
which holds for every call `run` makes. -/
theorem runLoop_ok_actions {C : Type} (ctx : C) (rules : List (Rule C)) (opts : RunOptions C)
    (maxI : Nat) :
    ∀ (fuel nb : Nat) (scan : ScanOutcome C) (st : RunState) (out : ResMap),
      (∀ i r, scan = .found i r →
        (getNextRuleToEvaluate ctx rules opts st).1 = .found i r) →
      (runLoop ctx rules opts maxI fuel nb scan st).1 = .ok out →
      (runLoop ctx rules opts maxI fuel nb scan st).2.1 + st.actionInvocations =
        nb + ((runLoop ctx rules opts maxI fuel nb scan st).2.2).actionInvocations := by
  intro fuel
  induction fuel with
  | zero =>
    intro nb scan st out _ hok
    cases scan with
    | thrown m => rw [runLoop_thrown] at hok ⊢
    | exhausted => rw [runLoop_exhausted]
    | found i r => rw [runLoop_found_zero] at hok; cases hok
  | succ fuel ih =>
    intro nb scan st out hconsist hok
    cases scan with
    | thrown m => rw [runLoop_thrown] at hok ⊢
    | exhausted => rw [runLoop_exhausted]
    | found i r =>
      have hscan0 : (getNextRuleToEvaluate ctx rules opts st).1 = .found i r :=
        hconsist i r rfl
      rcases hbody : tryExecuteRule ctx opts r (getRuleName r i) st with ⟨st', om⟩
      cases om with
      | none =>
        rw [runLoop_found_succ_ok ctx rules opts maxI fuel nb i r st st' hbody] at hok ⊢
        have hact : st'.actionInvocations = st.actionInvocations + 1 := by
          have h2 : (tryExecuteRule ctx opts r (getRuleName r i) st).2 = none := by
            rw [hbody]
          have := tryExecuteRule_none_actions ctx opts r (getRuleName r i) st h2
          rw [hbody] at this
          exact this
        have hconsist' : ∀ i2 r2,
            (getNextRuleToEvaluate ctx rules opts st').1 = .found i2 r2 →
            (getNextRuleToEvaluate ctx rules opts
              (getNextRuleToEvaluate ctx rules opts st').2).1 = .found i2 r2 := by
          intro i2 r2 h2
          rw [getNext_outcome_det ctx rules opts _ st' (getNext_result ctx rules opts st')]
          exact h2
        have hIH := ih (nb + 1) (getNextRuleToEvaluate ctx rules opts st').1
          (getNextRuleToEvaluate ctx rules opts st').2 out hconsist' hok
        have hscanact := getNext_actions ctx rules opts st'
        omega
      | some m =>
        cases hcont : opts.continueOnError
        · rw [runLoop_found_succ_err_fatal ctx rules opts maxI fuel nb i r st st' m hbody hcont]
            at hok
          cases hok
        · rw [runLoop_found_succ_err_cont ctx rules opts maxI fuel nb i r st st' m hbody hcont]
            at hok ⊢
          have h2 : (tryExecuteRule ctx opts r (getRuleName r i) st).2 = some m := by
            rw [hbody]
          rcases tryExecuteRule_some_cases ctx opts r (getRuleName r i) st m h2 with hact | hstuck
          · rw [hbody] at hact
            have hact2 : st'.actionInvocations = st.actionInvocations + 1 := hact
            have hconsist' : ∀ i2 r2,
                (getNextRuleToEvaluate ctx rules opts
                  { st' with errorLog := st'.errorLog ++
                    (if opts.onErrorConfigured then
                      [(execErrorMessage (getRuleName r i) m, "action")] else []) }).1 =
                    .found i2 r2 →
                (getNextRuleToEvaluate ctx rules opts
                  (getNextRuleToEvaluate ctx rules opts
                    { st' with errorLog := st'.errorLog ++
                      (if opts.onErrorConfigured then
                        [(execErrorMessage (getRuleName r i) m, "action")] else []) }).2).1 =
                    .found i2 r2 := by
              intro i2 r2 hsc
              rw [getNext_outcome_det ctx rules opts _ _ (getNext_result ctx rules opts _)]
              exact hsc
            have hIH := ih (nb + 1) _ _ out hconsist' hok
            have hscanact := getNext_actions ctx rules opts
              { st' with errorLog := st'.errorLog ++
                (if opts.onErrorConfigured then
                  [(execErrorMessage (getRuleName r i) m, "action")] else []) }
            have hupd : ({ st' with errorLog := st'.errorLog ++
                (if opts.onErrorConfigured then
                  [(execErrorMessage (getRuleName r i) m, "action")] else []) } :
                RunState).actionInvocations = st'.actionInvocations := rfl
            omega
          · obtain ⟨f, hbf, herr, heqst⟩ := hstuck
            rw [hbody] at heqst
            have heq2 : st' = st := heqst
            rw [heq2] at hok
            have hfound : ∀ stx : RunState, stx.result = st.result →
                (getNextRuleToEvaluate ctx rules opts stx).1 = .found i r := by
              intro stx hres
              rw [getNext_outcome_det ctx rules opts stx st hres]
              exact hscan0
            have hres2 : ({ st with errorLog := st.errorLog ++
                (if opts.onErrorConfigured then
                  [(execErrorMessage (getRuleName r i) m, "action")] else []) } :
                RunState).result = st.result := rfl
            have hscan2 := hfound _ hres2
            rw [hscan2] at hok
            obtain ⟨e, he⟩ := runLoop_before_throw_stuck ctx rules opts maxI i r f
              st.result m hbf herr hfound fuel (nb + 1)
              (getNextRuleToEvaluate ctx rules opts
                { st with errorLog := st.errorLog ++
                  (if opts.onErrorConfigured then
                    [(execErrorMessage (getRuleName r i) m, "action")] else []) }).2
              (by rw [getNext_result ctx rules opts _])
            rw [he] at hok
            cases hok

/-! ## Helper lemmas: `run` unfolding -/

theorem run_eq_ok {C : Type} (ctx : C) (rules : List (Rule C)) (initialResult : ResMap)
    (opts : RunOptions C) (r : ResMap) (nb : Nat) (st : RunState)
    (h : runLoop ctx rules opts (opts.maxIterations.getD 1000) (opts.maxIterations.getD 1000) 0
      (getNextRuleToEvaluate ctx rules opts (initialRunState rules initialResult opts)).1
      (getNextRuleToEvaluate ctx rules opts (initialRunState rules initialResult opts)).2 =
      (.ok r, nb, st)) :
    run ctx rules initialResult opts = (.ok r, nb, finalizeState opts nb st) := by
  simp only [run, h]

theorem run_eq_error {C : Type} (ctx : C) (rules : List (Rule C)) (initialResult : ResMap)
    (opts : RunOptions C) (m : String) (nb : Nat) (st : RunState)
    (h : runLoop ctx rules opts (opts.maxIterations.getD 1000) (opts.maxIterations.getD 1000) 0
      (getNextRuleToEvaluate ctx rules opts (initialRunState rules initialResult opts)).1
      (getNextRuleToEvaluate ctx rules opts (initialRunState rules initialResult opts)).2 =
      (.error m, nb, st)) :
    run ctx rules initialResult opts = (.error m, nb, st) := by
  simp only [run, h]

/-! ## Finalisation projections -/

theorem finalizeState_actions {C : Type} (opts : RunOptions C) (nb : Nat) (st : RunState) :
    (finalizeState opts nb st).actionInvocations = st.actionInvocations := by
  unfold finalizeState
  split
  · split <;> rfl
  · rfl

theorem finalizeState_result {C : Type} (opts : RunOptions C) (nb : Nat) (st : RunState) :
    (finalizeState opts nb st).result = st.result := by
  unfold finalizeState
  split
  · split <;> rfl
  · rfl

theorem finalizeState_collect {C : Type} (opts : RunOptions C) (nb : Nat) (st : RunState)
    (s2 : ExecutionStatistics) (hstats : opts.collectStats = true) (hs : st.stats = some s2) :
    finalizeState opts nb st =
      { st with stats := some { s2 with totalIterations := nb, totalTimeMs := st.clock } } := by
  unfold finalizeState
  rw [hstats, hs]
  simp

/-! ## Claim theorems -/

/-- C1: per selection scan, the returned rule is the first, in list order,
whose `evaluate` returned true on the current result; the scan invokes
predicates strictly in list order (exactly `i + 1` predicate invocations
when the match is at index `i`), stops at the first that returns true, and
returns no rule exactly when no predicate returned true. -/
theorem C1_first_match_selection {C : Type} (ctx : C) (rules : List (Rule C))
    (opts : RunOptions C) (st : RunState) :
    (∀ i r, (getNextRuleToEvaluate ctx rules opts st).1 = .found i r →
      rules.get? i = some r ∧ r.evaluate ctx st.result = .ok true ∧
      (∀ j r', j < i → rules.get? j = some r' → r'.evaluate ctx st.result ≠ .ok true) ∧
      ((getNextRuleToEvaluate ctx rules opts st).2).clock = st.clock + i + 1) ∧
    ((getNextRuleToEvaluate ctx rules opts st).1 = .exhausted →
      ∀ r ∈ rules, r.evaluate ctx st.result ≠ .ok true) := by
  constructor
  · intro i r h
    obtain ⟨k, hk, hget, hev, hpre, hclock⟩ := scanRules_found_spec ctx opts rules 0 st i r h
    have hk0 : k = i := by omega
    subst hk0
    exact ⟨hget, hev, fun j r' hj hg => hpre j r' hj hg, hclock⟩
  · intro h
    exact scanRules_exhausted_spec ctx opts rules 0 st h


/-- Witness for C1: on the scenario rules with `count = 0 < endValue = 3`,
the scan selects the increment rule at index 1, having invoked exactly the
two first predicates. -/
theorem C1_first_match_selection_witness :
    scenarioRules.get? 1 = some incrementRule ∧
    incrementRule.evaluate ⟨0, 3⟩ c1State.result = .ok true ∧
    (∀ j r', j < 1 → scenarioRules.get? j = some r' →
      r'.evaluate ⟨0, 3⟩ c1State.result ≠ .ok true) ∧
    ((getNextRuleToEvaluate (⟨0, 3⟩ : TestContext) scenarioRules
      (defaultRunOptions TestContext) c1State).2).clock = c1State.clock + 1 + 1 :=
  (C1_first_match_selection (⟨0, 3⟩ : TestContext) scenarioRules
    (defaultRunOptions TestContext) c1State).1 1 incrementRule rfl

/-- C6: `run` always terminates (it is a total function of its inputs), the
final iteration counter never exceeds `maxIterations + 1` (the failing
increment), at most `maxIterations` actions are ever invoked, and each
selection scan is a single bounded pass over the rule list (at most one
predicate invocation per rule). -/
theorem C6_termination_bounds {C : Type} (ctx : C) (rules : List (Rule C))
    (initialResult : ResMap) (opts : RunOptions C) :
    (run ctx rules initialResult opts).2.1 ≤ opts.maxIterations.getD 1000 + 1 ∧
    ((run ctx rules initialResult opts).2.2).actionInvocations ≤
      opts.maxIterations.getD 1000 ∧
    (∀ st : RunState,
      ((getNextRuleToEvaluate ctx rules opts st).2).clock ≤ st.clock + rules.length) := by
  have hnb := runLoop_nb_le ctx rules opts (opts.maxIterations.getD 1000)
    (opts.maxIterations.getD 1000) 0
    (getNextRuleToEvaluate ctx rules opts (initialRunState rules initialResult opts)).1
    (getNextRuleToEvaluate ctx rules opts (initialRunState rules initialResult opts)).2
  have hacts := runLoop_actions_le ctx rules opts (opts.maxIterations.getD 1000)
    (opts.maxIterations.getD 1000) 0
    (getNextRuleToEvaluate ctx rules opts (initialRunState rules initialResult opts)).1
    (getNextRuleToEvaluate ctx rules opts (initialRunState rules initialResult opts)).2
  have hacts0 : ((getNextRuleToEvaluate ctx rules opts
      (initialRunState rules initialResult opts)).2).actionInvocations = 0 := by
    rw [getNext_actions]
    rfl
  rcases hL : runLoop ctx rules opts (opts.maxIterations.getD 1000)
      (opts.maxIterations.getD 1000) 0
      (getNextRuleToEvaluate ctx rules opts (initialRunState rules initialResult opts)).1
      (getNextRuleToEvaluate ctx rules opts (initialRunState rules initialResult opts)).2
    with ⟨outcome, nb, stF⟩
  rw [hL] at hnb hacts
  have hnb' : nb ≤ 0 + opts.maxIterations.getD 1000 + 1 := hnb
  have hacts' : stF.actionInvocations ≤
      ((getNextRuleToEvaluate ctx rules opts
        (initialRunState rules initialResult opts)).2).actionInvocations +
        opts.maxIterations.getD 1000 := hacts
  rw [hacts0] at hacts'
  cases outcome with
  | ok r =>
    rw [run_eq_ok ctx rules initialResult opts r nb stF hL]
    refine ⟨by simpa using hnb', ?_, fun st => scanRules_clock_le ctx opts rules 0 st⟩
    show (finalizeState opts nb stF).actionInvocations ≤ opts.maxIterations.getD 1000
    rw [finalizeState_actions]
    omega
  | error m =>
    rw [run_eq_error ctx rules initialResult opts m nb stF hL]
    exact ⟨by simpa using hnb', by simpa using hacts',
      fun st => scanRules_clock_le ctx opts rules 0 st⟩

/-- C8: when no rule's predicate returns true against the initial result,
`run` resolves with the initial result itself (no merge was performed) and
the iteration counter stays zero. -/
theorem C8_no_initial_match {C : Type} (ctx : C) (rules : List (Rule C))
    (initialResult : ResMap) (opts : RunOptions C)
    (h : ∀ r ∈ rules, r.evaluate ctx initialResult = .ok false) :
    (run ctx rules initialResult opts).1 = .ok initialResult ∧
    (run ctx rules initialResult opts).2.1 = 0 := by
  have hsc : (getNextRuleToEvaluate ctx rules opts
      (initialRunState rules initialResult opts)).1 = .exhausted :=
    scanRules_all_false ctx opts rules 0 (initialRunState rules initialResult opts) h
  have hres : ((getNextRuleToEvaluate ctx rules opts
      (initialRunState rules initialResult opts)).2).result = initialResult :=
    getNext_result ctx rules opts (initialRunState rules initialResult opts)
  have hloop : runLoop ctx rules opts (opts.maxIterations.getD 1000)
      (opts.maxIterations.getD 1000) 0
      (getNextRuleToEvaluate ctx rules opts (initialRunState rules initialResult opts)).1
      (getNextRuleToEvaluate ctx rules opts (initialRunState rules initialResult opts)).2 =
      (.ok initialResult, 0,
        (getNextRuleToEvaluate ctx rules opts (initialRunState rules initialResult opts)).2) := by
    rw [hsc, runLoop_exhausted, hres]
  rw [run_eq_ok ctx rules initialResult opts initialResult 0 _ hloop]
  exact ⟨rfl, rfl⟩


/-- Witness for C8: with `count = 5` and `flag = true` none of the scenario
rules is eligible, so `run` returns the initial result after 0 iterations. -/
theorem C8_no_initial_match_witness :
    (∀ r ∈ scenarioRules, r.evaluate (⟨0, 3⟩ : TestContext) c8Result = .ok false) ∧
    (run (⟨0, 3⟩ : TestContext) scenarioRules c8Result
      (defaultRunOptions TestContext)).1 = .ok c8Result ∧
    (run (⟨0, 3⟩ : TestContext) scenarioRules c8Result
      (defaultRunOptions TestContext)).2.1 = 0 := by
  refine ⟨?_, ?_⟩
  · intro r hr
    simp only [scenarioRules, List.mem_cons, List.mem_singleton] at hr
    rcases hr with h1 | h2 | h3 | h4
    · rw [h1]; rfl
    · rw [h2]; rfl
    · rw [h3]; rfl
    · cases h4
  · exact C8_no_initial_match ⟨0, 3⟩ scenarioRules c8Result (defaultRunOptions TestContext)
      (by
        intro r hr
        simp only [scenarioRules, List.mem_cons, List.mem_singleton] at hr
        rcases hr with h1 | h2 | h3 | h4
        · rw [h1]; rfl
        · rw [h2]; rfl
        · rw [h3]; rfl
        · cases h4)

/-- C9 counterexample: in Scenario B the final result is not the object
`{count: 1}` — the init rule's action also wrote `flag: false`, so the
resolved result is `{count: 1, flag: false}` (it holds a `flag` key). -/
theorem C9_scenarioB_counterexample :
    scenarioBOutcome.1 = .ok [("count", Value.num 1), ("flag", Value.bool false)] ∧
    lookupResult [("count", Value.num 1), ("flag", Value.bool false)] "flag" =
      some (Value.bool false) ∧
    scenarioBOutcome.1 ≠ .ok [("count", Value.num 1)] := by
  refine ⟨rfl, rfl, ?_⟩
  intro h
  rw [show scenarioBOutcome.1 =
    .ok [("count", Value.num 1), ("flag", Value.bool false)] from rfl] at h
  simp at h

/-- C9 (amended): Scenario B resolves with final result
`{count: 1, flag: false}` after exactly 1 iteration. -/
theorem C9_scenarioB_amended :
    scenarioBOutcome.1 = .ok [("count", Value.num 1), ("flag", Value.bool false)] ∧
    scenarioBOutcome.2.1 = 1 :=
  ⟨rfl, rfl⟩

/-- C5: the result is only ever changed by shallow merge — update keys
overwrite, all other keys are preserved, no key is ever removed — and
consequently the key set of the result is non-decreasing across the
iterations of a run (stated both for every loop step and for a whole
`run`). -/
theorem C5_shallow_merge_key_monotone :
    (∀ (r u : ResMap) (k : String), containsKey u k = true →
      lookupResult (mergeResult r u) k = lookupResult u k) ∧
    (∀ (r u : ResMap) (k : String), containsKey u k = false →
      lookupResult (mergeResult r u) k = lookupResult r k) ∧
    (∀ (r u : ResMap) (k : String), containsKey r k = true →
      containsKey (mergeResult r u) k = true) ∧
    (∀ (C : Type) (ctx : C) (rules : List (Rule C)) (opts : RunOptions C)
      (maxI fuel nb : Nat) (scan : ScanOutcome C) (st : RunState) (k : String),
      containsKey st.result k = true →
      containsKey ((runLoop ctx rules opts maxI fuel nb scan st).2.2).result k = true) ∧
    (∀ (C : Type) (ctx : C) (rules : List (Rule C)) (initialResult : ResMap)
      (opts : RunOptions C) (k : String),
      containsKey initialResult k = true →
      containsKey ((run ctx rules initialResult opts).2.2).result k = true) := by
  refine ⟨lookupResult_mergeResult_of_mem, lookupResult_mergeResult_of_not_mem, ?_, ?_, ?_⟩
  · intro r u k h
    rw [containsKey_mergeResult, h]
    rfl
  · intro C ctx rules opts maxI fuel nb scan st k h
    exact runLoop_keys_mono ctx rules opts maxI fuel nb scan st k h
  · intro C ctx rules initialResult opts k h
    have h0 : containsKey ((getNextRuleToEvaluate ctx rules opts
        (initialRunState rules initialResult opts)).2).result k = true := by
      rw [getNext_result]
      exact h
    have hmono := runLoop_keys_mono ctx rules opts (opts.maxIterations.getD 1000)
      (opts.maxIterations.getD 1000) 0
      (getNextRuleToEvaluate ctx rules opts (initialRunState rules initialResult opts)).1
      (getNextRuleToEvaluate ctx rules opts (initialRunState rules initialResult opts)).2 k h0
    rcases hL : runLoop ctx rules opts (opts.maxIterations.getD 1000)
        (opts.maxIterations.getD 1000) 0
        (getNextRuleToEvaluate ctx rules opts (initialRunState rules initialResult opts)).1
        (getNextRuleToEvaluate ctx rules opts (initialRunState rules initialResult opts)).2
      with ⟨outcome, nb, stF⟩
    rw [hL] at hmono
    have hmono' : containsKey stF.result k = true := hmono
    cases outcome with
    | ok r =>
      rw [run_eq_ok ctx rules initialResult opts r nb stF hL]
      show containsKey (finalizeState opts nb stF).result k = true
      rw [finalizeState_result]
      exact hmono'
    | error m =>
      rw [run_eq_error ctx rules initialResult opts m nb stF hL]
      exact hmono'

/-- Witness for C5: a seeded key survives a whole Scenario-B style run and
the merge equations hold on concrete objects. -/
theorem C5_shallow_merge_key_monotone_witness :
    (containsKey [(("seed" : String), Value.num 7)] "seed" = true ∧
      containsKey ((run (⟨1, 0⟩ : TestContext) scenarioRules
        [("seed", Value.num 7)] (defaultRunOptions TestContext)).2.2).result "seed" = true) ∧
    (containsKey [(("a" : String), Value.num 2)] "a" = true ∧
      lookupResult (mergeResult [("a", Value.num 1)] [("a", Value.num 2)]) "a" =
        lookupResult [("a", Value.num 2)] "a") := by
  refine ⟨⟨by decide, ?_⟩, ⟨by decide, ?_⟩⟩
  · exact C5_shallow_merge_key_monotone.2.2.2.2 TestContext ⟨1, 0⟩ scenarioRules
      [("seed", Value.num 7)] (defaultRunOptions TestContext) "seed" (by decide)
  · exact C5_shallow_merge_key_monotone.1 [("a", Value.num 1)] [("a", Value.num 2)] "a"
      (by decide)

/-- C2: for a rule set of non-throwing rules containing a rule whose
predicate always returns true (and no `beforeRule`/`afterRule` hooks),
`run({maxIterations: N})` rejects with the error naming N: the counter,
incremented at the start of a cycle, exceeds N on the (N+1)-th cycle, so
exactly N actions were executed; `continueOnError` (left arbitrary here,
along with the other flags) does not affect this. -/
theorem C2_iteration_cap {C : Type} (ctx : C) (rules : List (Rule C))
    (initialResult : ResMap) (opts : RunOptions C) (N : Nat)
    (hmax : opts.maxIterations = some N)
    (hbefore : opts.beforeRule = none) (hafter : opts.afterRule = none)
    (hEvalTotal : ∀ r ∈ rules, ∀ res : ResMap, ∃ b, r.evaluate ctx res = .ok b)
    (hActTotal : ∀ r ∈ rules, ∀ res : ResMap, ∃ u, r.action ctx res = .ok u)
    (hAlways : ∃ r ∈ rules, ∀ res : ResMap, r.evaluate ctx res = .ok true) :
    (run ctx rules initialResult opts).1 = .error (maxIterationsMessage N) ∧
    (run ctx rules initialResult opts).2.1 = N + 1 ∧
    ((run ctx rules initialResult opts).2.2).actionInvocations = N := by
  have hN : opts.maxIterations.getD 1000 = N := by rw [hmax]; rfl
  obtain ⟨j, r0, hfound, hmem⟩ := scanRules_finds ctx opts rules 0
    (initialRunState rules initialResult opts)
    (fun r hr => hEvalTotal r hr _)
    (by obtain ⟨r, hr, ht⟩ := hAlways; exact ⟨r, hr, ht _⟩)
  have hfound' : (getNextRuleToEvaluate ctx rules opts
      (initialRunState rules initialResult opts)).1 = .found j r0 := hfound
  obtain ⟨h1, h2, h3⟩ := runLoop_cap ctx rules opts N hbefore hafter hEvalTotal hActTotal
    hAlways N 0 j r0
    (getNextRuleToEvaluate ctx rules opts (initialRunState rules initialResult opts)).2 hmem
  rcases hL : runLoop ctx rules opts N N 0 (.found j r0)
      (getNextRuleToEvaluate ctx rules opts (initialRunState rules initialResult opts)).2
    with ⟨outcome, nb, stF⟩
  rw [hL] at h1 h2 h3
  have houtcome : outcome = .error (maxIterationsMessage N) := h1
  have hnb : nb = 0 + N + 1 := h2
  have hact : stF.actionInvocations =
      ((getNextRuleToEvaluate ctx rules opts
        (initialRunState rules initialResult opts)).2).actionInvocations + N := h3
  have hact0 : ((getNextRuleToEvaluate ctx rules opts
      (initialRunState rules initialResult opts)).2).actionInvocations = 0 := by
    rw [getNext_actions]
    rfl
  have htuple : runLoop ctx rules opts (opts.maxIterations.getD 1000)
      (opts.maxIterations.getD 1000) 0
      (getNextRuleToEvaluate ctx rules opts (initialRunState rules initialResult opts)).1
      (getNextRuleToEvaluate ctx rules opts (initialRunState rules initialResult opts)).2 =
      (.error (maxIterationsMessage N), nb, stF) := by
    rw [hN, hfound', hL, houtcome]
  rw [run_eq_error ctx rules initialResult opts (maxIterationsMessage N) nb stF htuple]
  refine ⟨rfl, ?_, ?_⟩
  · show nb = N + 1
    omega
  · show stF.actionInvocations = N
    rw [hact, hact0]
    omega



/-- Witness for C2: a single always-true rule with `maxIterations = 2`
rejects with the error naming 2 after exactly 2 executed actions and a
counter of 3. -/
theorem C2_iteration_cap_witness :
    capOptions.maxIterations = some 2 ∧
    (run () [alwaysRule] [] capOptions).1 = .error (maxIterationsMessage 2) ∧
    (run () [alwaysRule] [] capOptions).2.1 = 2 + 1 ∧
    ((run () [alwaysRule] [] capOptions).2.2).actionInvocations = 2 := by
  refine ⟨rfl, ?_⟩
  have h := C2_iteration_cap () [alwaysRule] [] capOptions 2 rfl rfl rfl
    (by
      intro r hr res
      rw [List.mem_singleton] at hr
      subst hr
      exact ⟨true, rfl⟩)
    (by
      intro r hr res
      rw [List.mem_singleton] at hr
      subst hr
      exact ⟨some [], rfl⟩)
    ⟨alwaysRule, by simp, fun _ => rfl⟩
  exact h

/-- C10: when statistics are collected but the run rejects (iteration cap,
or a rule failure without `continueOnError`), the statistics object still
returned by `getStatistics()` has `totalIterations = 0` and
`totalTimeMs = 0`: the totals are written only on normal loop exit. -/
theorem C10_abnormal_zero_totals {C : Type} (ctx : C) (rules : List (Rule C))
    (initialResult : ResMap) (opts : RunOptions C) (m : String)
    (hstats : opts.collectStats = true)
    (h : (run ctx rules initialResult opts).1 = .error m) :
    ∃ s, ((run ctx rules initialResult opts).2.2).stats = some s ∧
      s.totalIterations = 0 ∧ s.totalTimeMs = 0 := by
  have hisSome := runLoop_stats_isSome ctx rules opts (opts.maxIterations.getD 1000)
    (opts.maxIterations.getD 1000) 0
    (getNextRuleToEvaluate ctx rules opts (initialRunState rules initialResult opts)).1
    (getNextRuleToEvaluate ctx rules opts (initialRunState rules initialResult opts)).2
  have htot := runLoop_totals ctx rules opts (opts.maxIterations.getD 1000)
    (opts.maxIterations.getD 1000) 0
    (getNextRuleToEvaluate ctx rules opts (initialRunState rules initialResult opts)).1
    (getNextRuleToEvaluate ctx rules opts (initialRunState rules initialResult opts)).2
  rcases hL : runLoop ctx rules opts (opts.maxIterations.getD 1000)
      (opts.maxIterations.getD 1000) 0
      (getNextRuleToEvaluate ctx rules opts (initialRunState rules initialResult opts)).1
      (getNextRuleToEvaluate ctx rules opts (initialRunState rules initialResult opts)).2
    with ⟨outcome, nb, stF⟩
  rw [hL] at hisSome htot
  have hinit : (initialRunState rules initialResult opts).stats =
      some (initStatistics rules) := by
    unfold initialRunState
    rw [hstats]
    rfl
  have hisSome2 : stF.stats.isSome = true := by
    have e1 : stF.stats.isSome = ((getNextRuleToEvaluate ctx rules opts
        (initialRunState rules initialResult opts)).2).stats.isSome := hisSome
    rw [e1, getNext_stats_isSome, hinit]
    rfl
  have htot2 : statsTotals stF.stats = some (0, 0) := by
    have e2 : statsTotals stF.stats = statsTotals ((getNextRuleToEvaluate ctx rules opts
        (initialRunState rules initialResult opts)).2).stats := htot
    rw [e2, getNext_totals, hinit]
    rfl
  obtain ⟨s, hs⟩ := Option.isSome_iff_exists.mp hisSome2
  rw [hs] at htot2
  have hpair : (s.totalIterations, s.totalTimeMs) = ((0 : Nat), (0 : Nat)) := by
    simpa [statsTotals] using htot2
  cases outcome with
  | ok r =>
    rw [run_eq_ok ctx rules initialResult opts r nb stF hL] at h
    cases h
  | error m0 =>
    rw [run_eq_error ctx rules initialResult opts m0 nb stF hL]
    refine ⟨s, hs, ?_, ?_⟩
    · have := congrArg Prod.fst hpair
      simpa using this
    · have := congrArg Prod.snd hpair
      simpa using this


/-- Witness for C10: an always-true rule under `maxIterations = 1` with
statistics on rejects, one action was executed and its per-rule execution
count was recorded, yet the returned totals are zero. -/
theorem C10_abnormal_zero_totals_witness :
    capStatsOptions.collectStats = true ∧
    (run () [alwaysRule] [] capStatsOptions).1 = .error (maxIterationsMessage 1) ∧
    ((run () [alwaysRule] [] capStatsOptions).2.2).actionInvocations = 1 ∧
    (∃ s, ((run () [alwaysRule] [] capStatsOptions).2.2).stats = some s ∧
      s.totalIterations = 0 ∧ s.totalTimeMs = 0) := by
  refine ⟨rfl, rfl, rfl, ?_⟩
  exact C10_abnormal_zero_totals () [alwaysRule] [] capStatsOptions
    (maxIterationsMessage 1) rfl rfl

/-- C7: for a run with statistics collection that terminates normally, the
returned `totalIterations` equals the number of action invocations the
engine made during that run. -/
theorem C7_totalIterations_eq_actions {C : Type} (ctx : C) (rules : List (Rule C))
    (initialResult : ResMap) (opts : RunOptions C) (out : ResMap)
    (hstats : opts.collectStats = true)
    (h : (run ctx rules initialResult opts).1 = .ok out) :
    ∃ s, ((run ctx rules initialResult opts).2.2).stats = some s ∧
      s.totalIterations = ((run ctx rules initialResult opts).2.2).actionInvocations := by
  have hisSome := runLoop_stats_isSome ctx rules opts (opts.maxIterations.getD 1000)
    (opts.maxIterations.getD 1000) 0
    (getNextRuleToEvaluate ctx rules opts (initialRunState rules initialResult opts)).1
    (getNextRuleToEvaluate ctx rules opts (initialRunState rules initialResult opts)).2
  have hconsist : ∀ (i : Nat) (r : Rule C),
      (getNextRuleToEvaluate ctx rules opts (initialRunState rules initialResult opts)).1 =
        .found i r →
      (getNextRuleToEvaluate ctx rules opts
        (getNextRuleToEvaluate ctx rules opts
          (initialRunState rules initialResult opts)).2).1 = .found i r := by
    intro i r hi
    rw [getNext_outcome_det ctx rules opts _ _
      (getNext_result ctx rules opts (initialRunState rules initialResult opts))]
    exact hi
  rcases hL : runLoop ctx rules opts (opts.maxIterations.getD 1000)
      (opts.maxIterations.getD 1000) 0
      (getNextRuleToEvaluate ctx rules opts (initialRunState rules initialResult opts)).1
      (getNextRuleToEvaluate ctx rules opts (initialRunState rules initialResult opts)).2
    with ⟨outcome, nb, stF⟩
  rw [hL] at hisSome
  cases outcome with
  | error m =>
    rw [run_eq_error ctx rules initialResult opts m nb stF hL] at h
    cases h
  | ok r =>
    have hinv := runLoop_ok_actions ctx rules opts (opts.maxIterations.getD 1000)
      (opts.maxIterations.getD 1000) 0
      (getNextRuleToEvaluate ctx rules opts (initialRunState rules initialResult opts)).1
      (getNextRuleToEvaluate ctx rules opts (initialRunState rules initialResult opts)).2
      r hconsist (by rw [hL])
    rw [hL] at hinv
    have hscanact : ((getNextRuleToEvaluate ctx rules opts
        (initialRunState rules initialResult opts)).2).actionInvocations = 0 := by
      rw [getNext_actions]
      rfl
    have hinv' : nb + ((getNextRuleToEvaluate ctx rules opts
        (initialRunState rules initialResult opts)).2).actionInvocations =
        0 + stF.actionInvocations := hinv
    have hnbact : nb = stF.actionInvocations := by omega
    have hinit : (initialRunState rules initialResult opts).stats =
        some (initStatistics rules) := by
      unfold initialRunState
      rw [hstats]
      rfl
    have hisSome2 : stF.stats.isSome = true := by
      have e1 : stF.stats.isSome = ((getNextRuleToEvaluate ctx rules opts
          (initialRunState rules initialResult opts)).2).stats.isSome := hisSome
      rw [e1, getNext_stats_isSome, hinit]
      rfl
    obtain ⟨s2, hs2⟩ := Option.isSome_iff_exists.mp hisSome2
    rw [run_eq_ok ctx rules initialResult opts r nb stF hL]
    rw [finalizeState_collect opts nb stF s2 hstats hs2]
    refine ⟨{ s2 with totalIterations := nb, totalTimeMs := stF.clock }, rfl, ?_⟩
    show nb = stF.actionInvocations
    exact hnbact


set_option maxHeartbeats 2000000 in
/-- Witness for C7: Scenario A with statistics terminates normally after 5
iterations and the recorded `totalIterations` equals the 5 action
invocations made. -/
theorem C7_totalIterations_eq_actions_witness :
    statsOptions.collectStats = true ∧
    (run (⟨0, 3⟩ : TestContext) scenarioRules [] statsOptions).1 =
      .ok [("count", Value.num 3), ("flag", Value.bool true)] ∧
    ((run (⟨0, 3⟩ : TestContext) scenarioRules [] statsOptions).2.2).actionInvocations = 5 ∧
    (∃ s, ((run (⟨0, 3⟩ : TestContext) scenarioRules [] statsOptions).2.2).stats = some s ∧
      s.totalIterations =
        ((run (⟨0, 3⟩ : TestContext) scenarioRules [] statsOptions).2.2).actionInvocations) := by
  refine ⟨rfl, rfl, rfl, ?_⟩
  exact C7_totalIterations_eq_actions (⟨0, 3⟩ : TestContext) scenarioRules [] statsOptions
    [("count", Value.num 3), ("flag", Value.bool true)] rfl rfl

/-- What a predicate throw at position `k` means for the scan, provided the
scan reaches it (all earlier predicates returned false): the wrapped message
(naming the rule and the original message) is recorded for the `onError`
hook with phase `"evaluate"` when configured, exactly `k + 1` predicates
were invoked, and the scan either aborts with the wrapped error
(`continueOnError` off) or continues with the next rule (`continueOnError`
on). -/
theorem scanRules_error_spec {C : Type} (ctx : C) (opts : RunOptions C) :
    ∀ (rs : List (Rule C)) (i : Nat) (st : RunState) (k : Nat) (r : Rule C) (m : String),
      rs.get? k = some r →
      (∀ j r', j < k → rs.get? j = some r' → r'.evaluate ctx st.result = .ok false) →
      r.evaluate ctx st.result = .error m →
      (opts.continueOnError = false →
        (scanRules ctx opts rs i st).1 =
          .thrown (evalErrorMessage (getRuleName r (i + k)) m) ∧
        ((scanRules ctx opts rs i st).2).errorLog = st.errorLog ++
          (if opts.onErrorConfigured then
            [(evalErrorMessage (getRuleName r (i + k)) m, "evaluate")] else []) ∧
        ((scanRules ctx opts rs i st).2).clock = st.clock + k + 1 ∧
        ((scanRules ctx opts rs i st).2).result = st.result) ∧
      (opts.continueOnError = true →
        ∃ st2, scanRules ctx opts rs i st =
            scanRules ctx opts (rs.drop (k + 1)) (i + k + 1) st2 ∧
          st2.result = st.result ∧
          st2.errorLog = st.errorLog ++
            (if opts.onErrorConfigured then
              [(evalErrorMessage (getRuleName r (i + k)) m, "evaluate")] else []) ∧
          st2.clock = st.clock + k + 1) := by
  intro rs
  induction rs with
  | nil =>
    intro i st k r m hget _ _
    rw [List.get?_nil] at hget
    cases hget
  | cons rule rest ih =>
    intro i st k r m hget hpre herr
    cases k with
    | zero =>
      have hr : rule = r := by simpa using hget
      subst hr
      constructor
      · intro hcont
        rw [scanRules_cons_error_fatal ctx opts rule rest i st m herr hcont]
        refine ⟨by rw [Nat.add_zero], ?_, ?_, ?_⟩
        · rw [Nat.add_zero]
          rfl
        · rfl
        · rfl
      · intro hcont
        rw [scanRules_cons_error_cont ctx opts rule rest i st m herr hcont]
        refine ⟨afterEvalErrorState opts (evalErrorMessage (getRuleName rule i) m) st,
          ?_, rfl, ?_, rfl⟩
        · rw [Nat.add_zero]
          rfl
        · rw [Nat.add_zero]
          rfl
    | succ k2 =>
      have hev0 : rule.evaluate ctx st.result = .ok false :=
        hpre 0 rule (Nat.succ_pos k2) rfl
      rw [scanRules_cons_ok_false ctx opts rule rest i st hev0]
      have hres1 : (afterEvalOkState opts (getRuleName rule i) st).result = st.result :=
        afterEvalOkState_result opts (getRuleName rule i) st
      have hIH := ih (i + 1) (afterEvalOkState opts (getRuleName rule i) st) k2 r m
        (by simpa using hget)
        (by
          intro j r' hj hg
          rw [hres1]
          exact hpre (j + 1) r' (by omega) (by simpa using hg))
        (by rw [hres1]; exact herr)
      have hidx : i + 1 + k2 = i + (k2 + 1) := by omega
      rw [hidx] at hIH
      obtain ⟨hfatal, hcontinue⟩ := hIH
      constructor
      · intro hc
        obtain ⟨h1, h2, h3, h4⟩ := hfatal hc
        refine ⟨h1, ?_, ?_, ?_⟩
        · rw [h2, afterEvalOkState_errorLog]
        · rw [h3, afterEvalOkState_clock]
          omega
        · rw [h4, hres1]
      · intro hc
        obtain ⟨st2, h1, h2, h3, h4⟩ := hcontinue hc
        refine ⟨st2, ?_, ?_, ?_, ?_⟩
        · rw [h1]
          have hdrop : (rule :: rest).drop (k2 + 1 + 1) = rest.drop (k2 + 1) := rfl
          rw [hdrop]
        · rw [h2, hres1]
        · rw [h3, afterEvalOkState_errorLog]
        · rw [h4, afterEvalOkState_clock]
          omega

/-- C3: when the scan reaches a rule whose predicate throws, the thrown
value is wrapped into an error naming the rule (or its positional fallback
name when unnamed) and the original message; the `onError` hook is invoked
with phase `"evaluate"` exactly when configured; with `continueOnError` the
rule is treated as non-matching and the scan continues with the next rule,
otherwise the scan aborts with the wrapped error after exactly `k + 1`
predicate invocations, and a thrown scan makes the loop reject immediately
with it (no further rule is evaluated or executed). -/
theorem C3_evaluate_throw {C : Type} (ctx : C) (rules : List (Rule C)) (opts : RunOptions C)
    (st : RunState) (k : Nat) (r : Rule C) (m : String)
    (hget : rules.get? k = some r)
    (hpre : ∀ j r', j < k → rules.get? j = some r' → r'.evaluate ctx st.result = .ok false)
    (herr : r.evaluate ctx st.result = .error m) :
    (r.name = none → getRuleName r k = "Rule #" ++ toString (k + 1)) ∧
    (opts.continueOnError = false →
      (getNextRuleToEvaluate ctx rules opts st).1 =
        .thrown (evalErrorMessage (getRuleName r k) m) ∧
      ((getNextRuleToEvaluate ctx rules opts st).2).errorLog = st.errorLog ++
        (if opts.onErrorConfigured then
          [(evalErrorMessage (getRuleName r k) m, "evaluate")] else []) ∧
      ((getNextRuleToEvaluate ctx rules opts st).2).clock = st.clock + k + 1) ∧
    (opts.continueOnError = true →
      ∃ st2, getNextRuleToEvaluate ctx rules opts st =
          scanRules ctx opts (rules.drop (k + 1)) (k + 1) st2 ∧
        st2.result = st.result ∧
        st2.errorLog = st.errorLog ++
          (if opts.onErrorConfigured then
            [(evalErrorMessage (getRuleName r k) m, "evaluate")] else []) ∧
        st2.clock = st.clock + k + 1) ∧
    (∀ (maxI fuel nb : Nat) (e : String) (stx : RunState),
      runLoop ctx rules opts maxI fuel nb (.thrown e) stx = (.error e, nb, stx)) := by
  have hspec := scanRules_error_spec ctx opts rules 0 st k r m hget hpre herr
  have hzero : 0 + k = k := by omega
  rw [hzero] at hspec
  obtain ⟨hfatal, hcontinue⟩ := hspec
  refine ⟨?_, ?_, ?_, ?_⟩
  · intro hn
    unfold getRuleName
    rw [hn]
  · intro hc
    obtain ⟨h1, h2, h3, _⟩ := hfatal hc
    exact ⟨h1, h2, h3⟩
  · intro hc
    obtain ⟨st2, h1, h2, h3, h4⟩ := hcontinue hc
    exact ⟨st2, h1, h2, h3, h4⟩
  · intro maxI fuel nb e stx
    exact runLoop_thrown ctx rules opts maxI fuel nb e stx





/-- Witness for C3: with a false rule followed by an unnamed throwing rule
and no `continueOnError`, the scan aborts with the wrapped error naming the
fallback "Rule #2", the hook invocation is recorded with phase "evaluate",
and both predicates were invoked. -/
theorem C3_evaluate_throw_witness :
    [falseRule, throwRule].get? 1 = some throwRule ∧
    throwRule.evaluate () emptyState.result = .error "boom" ∧
    getRuleName throwRule 1 = "Rule #" ++ toString (1 + 1) ∧
    (getNextRuleToEvaluate () [falseRule, throwRule] errOptions emptyState).1 =
      .thrown (evalErrorMessage (getRuleName throwRule 1) "boom") ∧
    ((getNextRuleToEvaluate () [falseRule, throwRule] errOptions emptyState).2).errorLog =
      emptyState.errorLog ++
        (if errOptions.onErrorConfigured then
          [(evalErrorMessage (getRuleName throwRule 1) "boom", "evaluate")] else []) ∧
    ((getNextRuleToEvaluate () [falseRule, throwRule] errOptions emptyState).2).clock =
      emptyState.clock + 1 + 1 := by
  have h := C3_evaluate_throw () [falseRule, throwRule] errOptions emptyState 1 throwRule
    "boom" rfl
    (by
      intro j r' hj hg
      cases j with
      | zero =>
        have : r' = falseRule := by simpa using hg.symm
        rw [this]
        rfl
      | succ j2 => omega)
    rfl
  obtain ⟨hname, hfatal, _, _⟩ := h
  obtain ⟨h1, h2, h3⟩ := hfatal rfl
  exact ⟨rfl, rfl, hname rfl, h1, h2, h3⟩


/-- C4: when the selected rule's action throws (no hooks configured), no
update is merged into the result and the statistics are untouched — the
iteration's only state change is the bookkeeping in `actionThrowState`,
whose `result` and `stats` are exactly those before the action and whose
log records the `onError` invocation with phase `"action"` when
configured; with `continueOnError` the loop proceeds directly to
re-selection from that state, otherwise it rejects with the wrapped error. -/
theorem C4_action_throw {C : Type} (ctx : C) (rules : List (Rule C)) (opts : RunOptions C)
    (maxI fuel nb i : Nat) (r : Rule C) (st : RunState) (m : String)
    (hbefore : opts.beforeRule = none)
    (hact : r.action ctx st.result = .error m) :
    ((actionThrowState opts (getRuleName r i) m st).result = st.result) ∧
    ((actionThrowState opts (getRuleName r i) m st).stats = st.stats) ∧
    ((actionThrowState opts (getRuleName r i) m st).errorLog = st.errorLog ++
      (if opts.onErrorConfigured then
        [(execErrorMessage (getRuleName r i) m, "action")] else [])) ∧
    (opts.continueOnError = true →
      runLoop ctx rules opts maxI (fuel + 1) nb (.found i r) st =
        runLoop ctx rules opts maxI fuel (nb + 1)
          (getNextRuleToEvaluate ctx rules opts
            (actionThrowState opts (getRuleName r i) m st)).1
          (getNextRuleToEvaluate ctx rules opts
            (actionThrowState opts (getRuleName r i) m st)).2) ∧
    (opts.continueOnError = false →
      (runLoop ctx rules opts maxI (fuel + 1) nb (.found i r) st).1 =
        .error (execErrorMessage (getRuleName r i) m) ∧
      (runLoop ctx rules opts maxI (fuel + 1) nb (.found i r) st).2.1 = nb + 1 ∧
      ((runLoop ctx rules opts maxI (fuel + 1) nb (.found i r) st).2.2).result = st.result ∧
      ((runLoop ctx rules opts maxI (fuel + 1) nb (.found i r) st).2.2).errorLog =
        st.errorLog ++
          (if opts.onErrorConfigured then
            [(execErrorMessage (getRuleName r i) m, "action")] else [])) := by
  have hbody : tryExecuteRule ctx opts r (getRuleName r i) st =
      (actionStartState st, some m) := by
    unfold tryExecuteRule
    rw [hbefore]
    unfold execActionPhase
    simp only [hact]
  refine ⟨rfl, rfl, rfl, ?_, ?_⟩
  · intro hcont
    rw [runLoop_found_succ_err_cont ctx rules opts maxI fuel nb i r st
      (actionStartState st) m hbody hcont]
    rfl
  · intro hcont
    rw [runLoop_found_succ_err_fatal ctx rules opts maxI fuel nb i r st
      (actionStartState st) m hbody hcont]
    exact ⟨rfl, rfl, rfl, rfl⟩


/-- Witness for C4: with a throwing action and `continueOnError` off, the
iteration rejects with the wrapped error naming the rule, the result is
untouched and the hook invocation with phase "action" is recorded. -/
theorem C4_action_throw_witness :
    badActionRule.action () emptyState.result = .error "kaboom" ∧
    getRuleName badActionRule 0 = "bad" ∧
    (runLoop () [badActionRule] errOptions 1000 (3 + 1) 0
      (.found 0 badActionRule) emptyState).1 =
      .error (execErrorMessage (getRuleName badActionRule 0) "kaboom") ∧
    (runLoop () [badActionRule] errOptions 1000 (3 + 1) 0
      (.found 0 badActionRule) emptyState).2.1 = 0 + 1 ∧
    ((runLoop () [badActionRule] errOptions 1000 (3 + 1) 0
      (.found 0 badActionRule) emptyState).2.2).result = emptyState.result ∧
    ((runLoop () [badActionRule] errOptions 1000 (3 + 1) 0
      (.found 0 badActionRule) emptyState).2.2).errorLog =
      emptyState.errorLog ++
        (if errOptions.onErrorConfigured then
          [(execErrorMessage (getRuleName badActionRule 0) "kaboom", "action")] else []) := by
  have h := C4_action_throw () [badActionRule] errOptions 1000 3 0 0 badActionRule
    emptyState "kaboom" rfl rfl
  obtain ⟨_, _, _, _, hfatal⟩ := h
  obtain ⟨h1, h2, h3, h4⟩ := hfatal rfl
  exact ⟨rfl, rfl, h1, h2, h3, h4⟩

end RulesEngine
